import Mathlib

/-!
# MiniSOC event pipeline: a shallow embedding with verified properties

This file embeds the core of the MiniSOC SIEM pipeline
(`tools/minisoc/src/minisoc/...`) in Lean 4 and proves properties of the
detection rules, the alert router, the SSH log parser, the replay driver,
the event-schema validation and the alert storage discipline.

Conventions of the embedding:
* Python dictionaries whose iteration order is observable (the password-spray
  per-bucket user map) become association lists with the same
  insert-at-end/update-in-place semantics; dictionaries used only through
  lookup become total functions with `Option` values or a `[]` default.
* Timestamps are the RFC3339 `...Z` strings the system produces; wall-clock
  instants (router dedupe) are abstract `Nat` time points.
* Machine floats appear only in the haversine distance and the
  impossible-travel speed test; the distance is modelled over `ℝ`, and the
  speed comparison is a parameter of the detection pipeline.
-/

namespace Minisoc

/-- Python truthiness of an optional string field (`None` and `""` are falsy):
`if not ev.src or not ev.src.ip` style guards. -/
def present : Option String → Bool
  | none => false
  | some s => !(s = "")

/-- `l[-n:]` — the `n` newest elements of a list. -/
def lastN (n : Nat) (l : List α) : List α := l.drop (l.length - n)

/-- The fields of `NormalizedEvent` consumed by the detection rules
(`minisoc/common/schema.py`); `eid` is `str(ev.event_id)`, `user` is
`ev.user.name` (with `None` standing for an absent or falsy field), `geo`
the optional `{lat, lon}` pair of `ev.src.geo`. -/
structure Ev where
  ts : String
  eid : String
  etype : String
  action : String
  outcome : String
  user : Option String
  srcIp : Option String
  geo : Option (ℝ × ℝ)

/-- `bucket_minute`: `ts[:16]`, the `"YYYY-MM-DDTHH:MM"` prefix. -/
def bucketMinute (ts : String) : String := String.mk (ts.data.take 16)

/-- `Detection` (`server/detect/engine.py`); of the `details` dict we keep the
`bucket` entry, which every rule records and `to_alert` reads back. -/
structure Detection where
  rule_id : String
  title : String
  severity : Nat
  entity : String
  event_ids : List String
  bucket : String
deriving DecidableEq, Repr

/-! ## AUTH001 — `BruteForceRule` (`server/detect/engine.py`) -/

/-- Brute-force state: `src_ip -> [(ts, event_id)]`, total with default `[]`
(Python's `setdefault(src_ip, [])`). -/
def BFSt : Type := String → List (String × String)

/-- The empty brute-force state. -/
def bfEmpty : BFSt := fun _ => []

/-- `BruteForceRule.on_event`, with the rule's `threshold` a parameter
(default 5): on an auth/ssh_login failure with a (truthy) source IP, append
`(ts, event_id)` to the per-IP history, trim the history to the 200 newest
when it exceeds 200, and fire when its length reaches `threshold`, with the
last `threshold` event ids and entity `src_ip:<ip>`. -/
def bfStep (threshold : Nat) (st : BFSt) (ev : Ev) : BFSt × Option Detection :=
  if ev.etype = "auth" && ev.action = "ssh_login" then
    if ev.outcome = "failure" then
      match ev.srcIp with
      | none => (st, none)
      | some ip =>
        if ip = "" then (st, none) else
          let h0 := st ip ++ [(ev.ts, ev.eid)]
          let hist := if 200 < h0.length then lastN 200 h0 else h0
          let st' : BFSt := fun k => if k = ip then hist else st k
          (st',
           if threshold ≤ hist.length then
             some { rule_id := "AUTH001", title := "SSH brute force suspected",
                    severity := 7, entity := "src_ip:" ++ ip,
                    event_ids := (lastN threshold hist).map Prod.snd,
                    bucket := bucketMinute ev.ts }
           else none)
    else (st, none)
  else (st, none)

/-- Run the brute-force rule over a stream, returning the final state. -/
def bfRun (threshold : Nat) (st : BFSt) : List Ev → BFSt
  | [] => st
  | ev :: rest => bfRun threshold (bfStep threshold st ev).1 rest

/-- The guard of `BruteForceRule.on_event`: an auth ssh_login failure whose
source IP is present (truthy) and equals `ip`. -/
def bfFrom (ip : String) (ev : Ev) : Bool :=
  ev.etype = "auth" && ev.action = "ssh_login" && ev.outcome = "failure" &&
    (ev.srcIp = some ip) && !(ip = "")

/-- The `(ts, event_id)` records of all failures from `ip` in a stream. -/
def failRecords (ip : String) (evs : List Ev) : List (String × String) :=
  (evs.filter (bfFrom ip)).map (fun ev => (ev.ts, ev.eid))

theorem lastN_of_le {l : List α} {n : Nat} (h : l.length ≤ n) : lastN n l = l := by
  simp [lastN, Nat.sub_eq_zero_of_le h]

theorem lastN_length (n : Nat) (l : List α) : (lastN n l).length = min n l.length := by
  simp [lastN]
  omega

theorem lastN_lastN {m n : Nat} (h : m ≤ n) (l : List α) :
    lastN m (lastN n l) = lastN m l := by
  unfold lastN
  rw [List.drop_drop]
  congr 1
  simp
  omega

theorem lastN_append_one (l : List α) (x : α) :
    lastN 200 (lastN 200 l ++ [x]) = lastN 200 (l ++ [x]) := by
  rcases Nat.lt_or_ge l.length 200 with hl | hl
  · rw [lastN_of_le (le_of_lt hl), lastN_of_le]
    simp
    omega
  · unfold lastN
    have hlen : (List.drop (l.length - 200) l).length = 200 := by simp; omega
    have h1 : (List.drop (l.length - 200) l ++ [x]).length - 200 = 1 := by simp [hlen]
    rw [h1, List.drop_append_of_le_length (by rw [hlen]; omega), List.drop_drop]
    have h2 : (l ++ [x]).length - 200 = (l.length - 200 + 1) := by simp; omega
    rw [h2, List.drop_append_of_le_length (by omega)]

/-- One step of the brute-force rule updates the per-IP history for `ip` by
appending the record exactly when the event is a failure from `ip`, keeping
the 200 newest records. -/
theorem bfStep_hist (t : Nat) (st : BFSt) (ev : Ev) (ip : String)
    (recs : List (String × String)) (hs : st ip = lastN 200 recs) :
    (bfStep t st ev).1 ip
      = lastN 200 (recs ++ (if bfFrom ip ev then [(ev.ts, ev.eid)] else [])) := by
  rcases ev with ⟨ts, eid, etype, action, outcome, user, srcIp, geo⟩
  simp only [bfStep, bfFrom]
  by_cases h1 : etype = "auth"
  case neg => simp [h1, hs]
  by_cases h2 : action = "ssh_login"
  case neg => simp [h1, h2, hs]
  by_cases h3 : outcome = "failure"
  case neg => simp [h1, h2, h3, hs]
  match srcIp with
  | none => simp [h1, h2, h3, hs]
  | some ip' =>
    by_cases h4 : ip' = ""
    · subst h4
      have hcond : ¬("" = ip ∧ ¬ip = "") := by
        rintro ⟨ha, hb⟩; exact hb ha.symm
      simp [h1, h2, h3, hs, hcond]
    · by_cases h5 : ip' = ip
      · subst h5
        simp [h1, h2, h3, h4, hs]
        rcases Nat.lt_or_ge 200 ((lastN 200 recs).length + 1) with hlen | hlen
        · simp [hlen, lastN_append_one]
        · have hr : recs.length ≤ 199 := by
            have := lastN_length 200 recs; omega
          have h199 : ¬(200 < (lastN 200 recs).length + 1) := by omega
          simp [h199, lastN_of_le (le_of_lt (by omega : recs.length < 200)),
            lastN_of_le (by simp; omega : (recs ++ [(ts, eid)]).length ≤ 200)]
      · have hcond : ¬(ip' = ip ∧ ¬ip = "") := by rintro ⟨ha, _⟩; exact h5 ha
        simp [h1, h2, h3, h4, hs, hcond, Ne.symm h5]

/-- Running the brute-force rule leaves, for each IP, exactly the 200 newest
failure records from that IP. -/
theorem bfRun_hist (t : Nat) (evs : List Ev) (ip : String) :
    ∀ (st : BFSt) (recs : List (String × String)), st ip = lastN 200 recs →
      bfRun t st evs ip = lastN 200 (recs ++ failRecords ip evs) := by
  induction evs with
  | nil => intro st recs hs; simpa [bfRun, failRecords] using hs
  | cons e rest ih =>
    intro st recs hs
    have hstep := bfStep_hist t st e ip recs hs
    by_cases hf : bfFrom ip e
    · rw [bfRun, ih _ (recs ++ [(e.ts, e.eid)]) (by simpa [hf] using hstep)]
      simp [failRecords, hf, List.filter_cons]
    · rw [bfRun, ih _ recs (by simpa [hf] using hstep)]
      simp [failRecords, hf, List.filter_cons]

theorem trimAppend (recs : List (String × String)) (x : String × String) :
    (if 200 < (lastN 200 recs).length + 1 then lastN 200 (lastN 200 recs ++ [x])
     else lastN 200 recs ++ [x]) = lastN 200 (recs ++ [x]) := by
  rcases Nat.lt_or_ge recs.length 200 with hl | hl
  · rw [lastN_of_le (le_of_lt hl)]
    have hc : ¬200 < recs.length + 1 := by omega
    rw [if_neg hc, lastN_of_le (by simp; omega)]
  · have hlen : (lastN 200 recs).length = 200 := by rw [lastN_length]; omega
    rw [if_pos (by omega), lastN_append_one]

/-- On a failure from `ip`, the brute-force rule fires exactly when the
updated (trimmed) history reaches `threshold`, with the last `threshold`
event ids. -/
theorem bfStep_fire (t : Nat) (st : BFSt) (ev : Ev) (ip : String)
    (recs : List (String × String)) (hs : st ip = lastN 200 recs)
    (hf : bfFrom ip ev = true) (ht : t ≤ 200) :
    (bfStep t st ev).2 =
      if t ≤ recs.length + 1 then
        some { rule_id := "AUTH001", title := "SSH brute force suspected",
               severity := 7, entity := "src_ip:" ++ ip,
               event_ids := (lastN t (recs ++ [(ev.ts, ev.eid)])).map Prod.snd,
               bucket := bucketMinute ev.ts }
      else none := by
  rcases ev with ⟨ts, eid, etype, action, outcome, user, srcIp, geo⟩
  simp only [bfFrom, Bool.and_eq_true, decide_eq_true_eq, Bool.not_eq_true',
    decide_eq_false_iff_not] at hf
  obtain ⟨⟨⟨⟨h1, h2⟩, h3⟩, h5⟩, h4⟩ := hf
  subst h1 h2 h3
  subst h5
  simp only [bfStep]
  simp [h4]
  rw [hs, trimAppend]
  have hmin : (lastN 200 (recs ++ [(ts, eid)])).length = min 200 (recs.length + 1) := by
    rw [lastN_length]; simp
  rw [hmin]
  have hiff : (t ≤ min 200 (recs.length + 1)) ↔ (t ≤ recs.length + 1) := by omega
  by_cases hfire : t ≤ recs.length + 1
  · rw [if_pos (hiff.mpr hfire), if_pos hfire, lastN_lastN ht]
  · rw [if_neg (fun hc => hfire (hiff.mp hc)), if_neg hfire]

/-- A concrete brute-force scenario event: failure number `n` from one IP. -/
def bfDemoEv (n : Nat) : Ev :=
  { ts := "2026-01-12T10:00:0" ++ toString n ++ "Z", eid := "e" ++ toString n,
    etype := "auth", action := "ssh_login", outcome := "failure",
    user := some "root", srcIp := some "203.0.113.10", geo := none }

/-- C1. `BruteForceRule.on_event` (AUTH001) fires on a failure from IP `ip`
exactly when, counting that event, at least `threshold` failures from `ip`
have been recorded (threshold ≤ 200, history bounded to the 200 newest);
the detection's `event_ids` are the ids of the last `threshold` failures
from `ip` in order and its entity is `src_ip:<ip>`. In particular a 4th
consecutive failure from one IP yields no detection and a 5th yields one
(threshold default 5). -/
theorem auth001_brute_force_spec :
    (∀ (t : Nat) (evs : List Ev) (e : Ev) (ip : String),
      bfFrom ip e = true → t ≤ 200 →
        (((bfStep t (bfRun t bfEmpty evs) e).2).isSome
            ↔ t ≤ (failRecords ip (evs ++ [e])).length)
        ∧ (∀ d, (bfStep t (bfRun t bfEmpty evs) e).2 = some d →
            d.event_ids = (lastN t (failRecords ip (evs ++ [e]))).map Prod.snd
            ∧ d.entity = "src_ip:" ++ ip ∧ d.rule_id = "AUTH001"))
    ∧ (bfStep 5 (bfRun 5 bfEmpty [bfDemoEv 0, bfDemoEv 1, bfDemoEv 2])
        (bfDemoEv 3)).2 = none
    ∧ (bfStep 5 (bfRun 5 bfEmpty [bfDemoEv 0, bfDemoEv 1, bfDemoEv 2, bfDemoEv 3])
        (bfDemoEv 4)).2 =
        some { rule_id := "AUTH001", title := "SSH brute force suspected",
               severity := 7, entity := "src_ip:203.0.113.10",
               event_ids := ["e0", "e1", "e2", "e3", "e4"],
               bucket := "2026-01-12T10:00" } := by
  refine ⟨?_, by decide, by decide⟩
  intro t evs e ip hf ht
  have hrun : bfRun t bfEmpty evs ip = lastN 200 (failRecords ip evs) := by
    simpa using bfRun_hist t evs ip bfEmpty [] (by simp [bfEmpty, lastN])
  have hrecs : failRecords ip (evs ++ [e]) = failRecords ip evs ++ [(e.ts, e.eid)] := by
    simp [failRecords, hf]
  have hfire := bfStep_fire t (bfRun t bfEmpty evs) e ip (failRecords ip evs) hrun hf ht
  have hcount : (failRecords ip (evs ++ [e])).length = (failRecords ip evs).length + 1 := by
    rw [hrecs]; simp
  constructor
  · rw [hfire, hcount]
    by_cases hc : t ≤ (failRecords ip evs).length + 1 <;> simp [hc]
  · intro d hd
    rw [hfire] at hd
    by_cases hc : t ≤ (failRecords ip evs).length + 1
    · rw [if_pos hc] at hd
      cases hd
      exact ⟨by rw [hrecs], rfl, rfl⟩
    · rw [if_neg hc] at hd
      cases hd

/-- Witness for C1: the general characterization instantiated on a concrete
two-event stream (2 < 5 failures: no detection). -/
theorem auth001_brute_force_spec_witness :
    (((bfStep 5 (bfRun 5 bfEmpty [bfDemoEv 0]) (bfDemoEv 1)).2).isSome
      ↔ 5 ≤ (failRecords "203.0.113.10" ([bfDemoEv 0] ++ [bfDemoEv 1])).length) :=
  (auth001_brute_force_spec.1 5 [bfDemoEv 0] (bfDemoEv 1) "203.0.113.10"
    (by decide) (by decide)).1

/-! ## AUTH002 — `PasswordSprayRule` (`server/detect/engine.py`) -/

/-- `setdefault(user, []).append(event_id)` on a per-bucket user map:
update the first entry for `u` in place, or append a fresh entry at the end
(Python dict insertion order). -/
def addSpray (u eid : String) : List (String × List String) → List (String × List String)
  | [] => [(u, [eid])]
  | (k, ids) :: rest =>
      if k = u then (k, ids ++ [eid]) :: rest else (k, ids) :: addSpray u eid rest

/-- Password-spray state: `src_ip -> bucket -> user -> [event_id...]`, the
outer two levels as total maps with default `{}` (`setdefault`). -/
def SpraySt : Type := String → String → List (String × List String)

/-- The empty password-spray state. -/
def sprayEmpty : SpraySt := fun _ _ => []

/-- `PasswordSprayRule.on_event` with parameters `distinct_users` (default 4)
and `max_per_user` (default 2): on an auth/ssh_login failure with source IP
and user, append the event id under `(src_ip, minute-bucket, user)`; fire
when the bucket has at least `du` distinct users and every per-user list has
at most `mp` ids, with one event id per user (each user's newest). -/
def sprayStep (du mp : Nat) (st : SpraySt) (ev : Ev) : SpraySt × Option Detection :=
  if ev.etype = "auth" && ev.action = "ssh_login" then
    if ev.outcome = "failure" then
      match ev.srcIp, ev.user with
      | some ip, some u =>
        if ip = "" || u = "" then (st, none) else
          let b := bucketMinute ev.ts
          let users := addSpray u ev.eid (st ip b)
          let st' : SpraySt := fun i bb => if i = ip && bb = b then users else st i bb
          (st',
           if du ≤ users.length && users.all (fun p => p.2.length ≤ mp) then
             some { rule_id := "AUTH002", title := "Password spraying suspected",
                    severity := 8, entity := "src_ip:" ++ ip,
                    event_ids := users.map (fun p => p.2.getLastD ""),
                    bucket := b }
           else none)
      | _, _ => (st, none)
    else (st, none)
  else (st, none)

/-- Run the password-spray rule over a stream, returning the final state. -/
def sprayRun (du mp : Nat) (st : SpraySt) : List Ev → SpraySt
  | [] => st
  | ev :: rest => sprayRun du mp (sprayStep du mp st ev).1 rest

/-- The guard of `PasswordSprayRule.on_event` for source IP `ip` and minute
bucket `b`: an auth ssh_login failure from `ip` carrying a (truthy) user,
falling in bucket `b`. -/
def sprayFrom (ip b : String) (ev : Ev) : Bool :=
  ev.etype = "auth" && ev.action = "ssh_login" && ev.outcome = "failure" &&
    (ev.srcIp = some ip) && !(ip = "") && present ev.user && (bucketMinute ev.ts = b)

/-- The `(ip, b)` bucket contents determined by a stream alone: fold the
per-user append over the failures from `ip` in bucket `b`. -/
def bucketCell (ip b : String) (init : List (String × List String)) (evs : List Ev) :
    List (String × List String) :=
  (evs.filter (sprayFrom ip b)).foldl (fun acc ev => addSpray (ev.user.getD "") ev.eid acc) init

/-- One spray step changes the `(ip, b)` cell by the per-user append exactly
when the event is a failure from `ip` in bucket `b`. -/
theorem sprayStep_cell (du mp : Nat) (st : SpraySt) (ev : Ev) (ip b : String) :
    (sprayStep du mp st ev).1 ip b
      = if sprayFrom ip b ev then addSpray (ev.user.getD "") ev.eid (st ip b) else st ip b := by
  rcases ev with ⟨ts, eid, etype, action, outcome, user, srcIp, geo⟩
  simp only [sprayStep, sprayFrom, present]
  by_cases h1 : etype = "auth"
  case neg => simp [h1]
  by_cases h2 : action = "ssh_login"
  case neg => simp [h1, h2]
  by_cases h3 : outcome = "failure"
  case neg => simp [h1, h2, h3]
  match srcIp, user with
  | none, none => simp [h1, h2, h3]
  | none, some u => simp [h1, h2, h3]
  | some ip', none => simp [h1, h2, h3]
  | some ip', some u =>
    by_cases h4 : ip' = ""
    · subst h4
      simp only [h1, h2, h3]
      have hc : ¬((("" = ip ∧ ¬ip = "") ∧ ¬u = "") ∧ bucketMinute ts = b) := by
        rintro ⟨⟨⟨ha, hb⟩, _⟩, _⟩; exact hb ha.symm
      simp [hc]
    · by_cases h5 : u = ""
      · subst h5
        have hc : ¬(((ip' = ip ∧ ¬ip = "") ∧ ¬(("" : String) = "")) ∧ bucketMinute ts = b) := by
          rintro ⟨⟨_, hb⟩, _⟩; exact hb rfl
        simp [h1, h2, h3, h4, hc]
      · by_cases h6 : ip' = ip
        · subst h6
          by_cases h7 : bucketMinute ts = b
          · subst h7
            simp [h1, h2, h3, h4, h5]
          · have h7' : ¬(b = bucketMinute ts) := fun h => h7 h.symm
            simp [h1, h2, h3, h4, h5, h7, h7']
        · have h6' : ¬(ip = ip') := fun h => h6 h.symm
          simp [h1, h2, h3, h4, h5, h6, h6']

/-- Running the spray rule computes, at each `(ip, bucket)` cell, the fold of
the per-user appends over the matching failures of the stream. -/
theorem sprayRun_cell (du mp : Nat) (evs : List Ev) (ip b : String) :
    ∀ st : SpraySt, sprayRun du mp st evs ip b = bucketCell ip b (st ip b) evs := by
  induction evs with
  | nil => intro st; simp [sprayRun, bucketCell]
  | cons e rest ih =>
    intro st
    rw [sprayRun, ih]
    simp only [bucketCell, List.filter_cons]
    by_cases hf : sprayFrom ip b e
    · simp [hf, sprayStep_cell du mp st e ip b]
    · simp [hf, sprayStep_cell du mp st e ip b]

/-- On a failure from `ip` with user `u`, the spray rule fires by the
distinct-users/max-per-user test on the updated bucket. -/
theorem sprayStep_fire (du mp : Nat) (st : SpraySt) (ev : Ev) (ip u : String)
    (hf : sprayFrom ip (bucketMinute ev.ts) ev = true) (hu : ev.user = some u) :
    (sprayStep du mp st ev).2 =
      (if du ≤ (addSpray u ev.eid (st ip (bucketMinute ev.ts))).length
          && (addSpray u ev.eid (st ip (bucketMinute ev.ts))).all (fun p => p.2.length ≤ mp)
       then
         some { rule_id := "AUTH002", title := "Password spraying suspected",
                severity := 8, entity := "src_ip:" ++ ip,
                event_ids := (addSpray u ev.eid (st ip (bucketMinute ev.ts))).map
                  (fun p => p.2.getLastD ""),
                bucket := bucketMinute ev.ts }
       else none) := by
  rcases ev with ⟨ts, eid, etype, action, outcome, user, srcIp, geo⟩
  simp only at hu
  subst hu
  simp only [sprayFrom, present, Bool.and_eq_true, decide_eq_true_eq,
    Bool.not_eq_true', decide_eq_false_iff_not] at hf
  obtain ⟨⟨⟨⟨⟨⟨h1, h2⟩, h3⟩, h5⟩, h4⟩, h6⟩, _⟩ := hf
  subst h1 h2 h3
  subst h5
  simp [sprayStep, h4, h6]

theorem addSpray_keys (u eid : String) (l : List (String × List String)) :
    (addSpray u eid l).map Prod.fst
      = if u ∈ l.map Prod.fst then l.map Prod.fst else l.map Prod.fst ++ [u] := by
  induction l with
  | nil => simp [addSpray]
  | cons p rest ih =>
    rcases p with ⟨k, ids⟩
    by_cases hk : k = u
    · subst hk
      simp [addSpray]
    · simp only [addSpray, if_neg hk, List.map_cons]
      rw [ih]
      by_cases hm : u ∈ List.map Prod.fst rest
      · simp [hm]
      · simp [hm, Ne.symm hk]

theorem addSpray_keys_nodup (u eid : String) (l : List (String × List String))
    (h : (l.map Prod.fst).Nodup) : ((addSpray u eid l).map Prod.fst).Nodup := by
  rw [addSpray_keys]
  by_cases hm : u ∈ l.map Prod.fst
  · simpa [hm] using h
  · simp [hm]
    exact List.Nodup.append h (List.nodup_singleton u) (by simpa using hm)

/-- Reachable spray states have distinct user keys in every bucket, so the
code's `len(users)` is the number of distinct users of the bucket. -/
theorem sprayRun_keys_nodup (du mp : Nat) (evs : List Ev) :
    ∀ st : SpraySt, (∀ i bb, ((st i bb).map Prod.fst).Nodup) →
      ∀ ip b, (((sprayRun du mp st evs) ip b).map Prod.fst).Nodup := by
  induction evs with
  | nil => intro st h ip b; simpa [sprayRun] using h ip b
  | cons e rest ih =>
    intro st h ip b
    refine ih _ (fun i bb => ?_) ip b
    rw [sprayStep_cell]
    split
    · exact addSpray_keys_nodup _ _ _ (h i bb)
    · exact h i bb

/-- First-match lookup of a user's id list in a bucket (`users[u]`). -/
def lookupIds (u : String) : List (String × List String) → List String
  | [] => []
  | (k, ids) :: rest => if k = u then ids else lookupIds u rest

theorem lookupIds_addSpray_le (u u' eid : String) (l : List (String × List String)) :
    (lookupIds u l).length ≤ (lookupIds u (addSpray u' eid l)).length := by
  induction l with
  | nil =>
    by_cases h : u' = u <;> simp [addSpray, lookupIds, h]
  | cons p rest ih =>
    rcases p with ⟨k, ids⟩
    by_cases hk : k = u'
    · subst hk
      by_cases hu : k = u <;> simp [addSpray, lookupIds, hu]
    · by_cases hu : k = u
      · subst hu
        simp [addSpray, lookupIds, hk]
      · simp [addSpray, lookupIds, hk, hu, ih]

theorem lookupIds_mem (u : String) (l : List (String × List String))
    (h : lookupIds u l ≠ []) : (u, lookupIds u l) ∈ l := by
  induction l with
  | nil => simp [lookupIds] at h
  | cons p rest ih =>
    rcases p with ⟨k, ids⟩
    by_cases hk : k = u
    · subst hk
      simp [lookupIds]
    · simp only [lookupIds, if_neg hk] at h ⊢
      exact List.mem_cons_of_mem _ (ih h)

theorem sprayStep_cell_mono (du mp : Nat) (st : SpraySt) (ev : Ev) (ip b u : String) :
    (lookupIds u (st ip b)).length ≤ (lookupIds u ((sprayStep du mp st ev).1 ip b)).length := by
  rw [sprayStep_cell]
  split
  · exact lookupIds_addSpray_le u _ _ _
  · exact le_refl _

theorem sprayRun_cell_mono (du mp : Nat) (evs : List Ev) (ip b u : String) :
    ∀ st : SpraySt,
      (lookupIds u (st ip b)).length ≤ (lookupIds u ((sprayRun du mp st evs) ip b)).length := by
  induction evs with
  | nil => intro st; simp [sprayRun]
  | cons e rest ih =>
    intro st
    exact le_trans (sprayStep_cell_mono du mp st e ip b u) (ih _)

/-- A concrete spray scenario event: user `u` failing once, all in one
minute from one IP. -/
def sprayDemoEv (n : Nat) (u : String) : Ev :=
  { ts := "2026-01-12T10:00:0" ++ toString n ++ "Z", eid := "s" ++ toString n,
    etype := "auth", action := "ssh_login", outcome := "failure",
    user := some u, srcIp := some "198.51.100.7", geo := none }

/-- C5. `PasswordSprayRule.on_event` (AUTH002) fires on a failure carrying a
user and source IP exactly when, after appending the event id under
`(src_ip, minute-bucket, user)`, the bucket holds at least `distinct_users`
distinct users (its user keys are distinct) and every per-user list has
length at most `max_per_user`; the detection carries one event id per user
(each user's newest) and entity `src_ip:<ip>`. In particular 4 distinct
users failing once each from one IP within one minute fire AUTH002 on the
4th failure (defaults `distinct_users = 4`, `max_per_user = 2`). -/
theorem auth002_password_spray_spec :
    (∀ (du mp : Nat) (evs : List Ev) (e : Ev) (ip u : String),
      sprayFrom ip (bucketMinute e.ts) e = true → e.user = some u →
        (((sprayStep du mp (sprayRun du mp sprayEmpty evs) e).2).isSome
            ↔ (du ≤ (bucketCell ip (bucketMinute e.ts) [] (evs ++ [e])).length
               ∧ ∀ p ∈ bucketCell ip (bucketMinute e.ts) [] (evs ++ [e]), p.2.length ≤ mp))
        ∧ (∀ d, (sprayStep du mp (sprayRun du mp sprayEmpty evs) e).2 = some d →
            d.event_ids = (bucketCell ip (bucketMinute e.ts) [] (evs ++ [e])).map
                (fun p => p.2.getLastD "")
            ∧ d.entity = "src_ip:" ++ ip ∧ d.rule_id = "AUTH002")
        ∧ ((bucketCell ip (bucketMinute e.ts) [] (evs ++ [e])).map Prod.fst).Nodup)
    ∧ (sprayStep 4 2 (sprayRun 4 2 sprayEmpty [sprayDemoEv 1 "u1", sprayDemoEv 2 "u2"])
        (sprayDemoEv 3 "u3")).2 = none
    ∧ (sprayStep 4 2 (sprayRun 4 2 sprayEmpty
        [sprayDemoEv 1 "u1", sprayDemoEv 2 "u2", sprayDemoEv 3 "u3"])
        (sprayDemoEv 4 "u4")).2 =
        some { rule_id := "AUTH002", title := "Password spraying suspected",
               severity := 8, entity := "src_ip:198.51.100.7",
               event_ids := ["s1", "s2", "s3", "s4"],
               bucket := "2026-01-12T10:00" } := by
  refine ⟨?_, by decide, by decide⟩
  intro du mp evs e ip u hf hu
  have hcellrun : sprayRun du mp sprayEmpty evs ip (bucketMinute e.ts)
      = bucketCell ip (bucketMinute e.ts) [] evs := by
    simpa [sprayEmpty] using sprayRun_cell du mp evs ip (bucketMinute e.ts) sprayEmpty
  have hcell : bucketCell ip (bucketMinute e.ts) [] (evs ++ [e])
      = addSpray u e.eid (bucketCell ip (bucketMinute e.ts) [] evs) := by
    simp [bucketCell, List.filter_append, hf, hu]
  have hfire := sprayStep_fire du mp (sprayRun du mp sprayEmpty evs) e ip u hf hu
  rw [hcellrun] at hfire
  rw [hfire, hcell]
  refine ⟨?_, ?_, ?_⟩
  · rcases hcb : (decide (du ≤ (addSpray u e.eid (bucketCell ip (bucketMinute e.ts) [] evs)).length)
        && (addSpray u e.eid (bucketCell ip (bucketMinute e.ts) [] evs)).all
            (fun p => decide (p.2.length ≤ mp))) with _ | _
    · rw [if_neg (by simp : ¬(false = true))]
      simp only [Option.isSome_none, Bool.false_eq_true, false_iff]
      rintro ⟨hlen, hall⟩
      have htrue : (decide (du ≤ (addSpray u e.eid (bucketCell ip (bucketMinute e.ts) [] evs)).length)
          && (addSpray u e.eid (bucketCell ip (bucketMinute e.ts) [] evs)).all
              (fun p => decide (p.2.length ≤ mp))) = true := by
        simp only [Bool.and_eq_true, decide_eq_true_eq, List.all_eq_true]
        exact ⟨hlen, fun p hp => by simpa using hall p hp⟩
      rw [hcb] at htrue
      cases htrue
    · rw [if_pos rfl]
      simp only [Option.isSome_some, true_iff]
      simp only [Bool.and_eq_true, decide_eq_true_eq, List.all_eq_true] at hcb
      exact ⟨hcb.1, fun p hp => by simpa using hcb.2 p hp⟩
  · intro d hd
    split at hd
    · cases hd
      exact ⟨rfl, rfl, rfl⟩
    · cases hd
  · have hnodup := sprayRun_keys_nodup du mp (evs ++ [e]) sprayEmpty
      (fun i bb => by simp [sprayEmpty]) ip (bucketMinute e.ts)
    rw [sprayRun_cell du mp (evs ++ [e]) ip (bucketMinute e.ts) sprayEmpty] at hnodup
    simp only [sprayEmpty] at hnodup
    rw [hcell] at hnodup
    exact hnodup

/-- Witness for C5: the general characterization instantiated on a concrete
two-event stream (2 < 4 distinct users: no detection). -/
theorem auth002_password_spray_spec_witness :
    ((sprayStep 4 2 (sprayRun 4 2 sprayEmpty [sprayDemoEv 1 "u1"]) (sprayDemoEv 2 "u2")).2.isSome
      ↔ (4 ≤ (bucketCell "198.51.100.7" (bucketMinute (sprayDemoEv 2 "u2").ts) []
              ([sprayDemoEv 1 "u1"] ++ [sprayDemoEv 2 "u2"])).length
         ∧ ∀ p ∈ bucketCell "198.51.100.7" (bucketMinute (sprayDemoEv 2 "u2").ts) []
              ([sprayDemoEv 1 "u1"] ++ [sprayDemoEv 2 "u2"]), p.2.length ≤ 2)) :=
  (auth002_password_spray_spec.1 4 2 [sprayDemoEv 1 "u1"] (sprayDemoEv 2 "u2")
    "198.51.100.7" "u2" (by decide) (by decide)).1

/-- A spray state in which one user already has 3 > `max_per_user` entries
in the bucket `("203.0.113.99", "2026-01-12T09:00")`. -/
def sprayOverSt : SpraySt := fun i bb =>
  if i = "203.0.113.99" && bb = "2026-01-12T09:00" then [("alice", ["x1", "x2", "x3"])] else []

/-- C9 (implicit). Once any user has accumulated more than `max_per_user`
entries in a given `(src_ip, bucket)` cell of the password-spray state, no
later event from that IP in that bucket can ever yield an AUTH002 detection
— the per-user lists of a bucket only grow, so the all-users-within-limit
conjunct stays false forever. -/
theorem auth002_overlimit_never_fires :
    ∀ (du mp : Nat) (st : SpraySt) (ip b u : String),
      mp < (lookupIds u (st ip b)).length →
      ∀ (evs : List Ev) (e : Ev), e.srcIp = some ip → bucketMinute e.ts = b →
        (sprayStep du mp (sprayRun du mp st evs) e).2 = none := by
  intro du mp st ip b u hover evs e hip hb
  have hmono : mp < (lookupIds u ((sprayRun du mp st evs) ip b)).length :=
    lt_of_lt_of_le hover (sprayRun_cell_mono du mp evs ip b u st)
  rcases e with ⟨ts, eid, etype, action, outcome, user, srcIp, geo⟩
  simp only at hip hb
  subst hip
  subst hb
  simp only [sprayStep]
  by_cases h1 : etype = "auth"
  case neg => simp [h1]
  by_cases h2 : action = "ssh_login"
  case neg => simp [h1, h2]
  by_cases h3 : outcome = "failure"
  case neg => simp [h1, h2, h3]
  match user with
  | none => simp [h1, h2, h3]
  | some uu =>
    by_cases h4 : ip = ""
    case pos => simp [h1, h2, h3, h4]
    by_cases h5 : uu = ""
    case pos => simp [h1, h2, h3, h4, h5]
    have husers : mp <
        (lookupIds u (addSpray uu eid ((sprayRun du mp st evs) ip (bucketMinute ts)))).length :=
      lt_of_lt_of_le hmono (lookupIds_addSpray_le u uu eid _)
    have hne : lookupIds u (addSpray uu eid ((sprayRun du mp st evs) ip (bucketMinute ts))) ≠ [] := by
      intro hnil
      rw [hnil] at husers
      simp at husers
    have hmem := lookupIds_mem u _ hne
    have hallfalse : (addSpray uu eid ((sprayRun du mp st evs) ip (bucketMinute ts))).all
        (fun p => p.2.length ≤ mp) = false := by
      rcases hall : (addSpray uu eid ((sprayRun du mp st evs) ip (bucketMinute ts))).all
          (fun p => p.2.length ≤ mp) with _ | _
      · rfl
      · have := List.all_eq_true.mp hall _ hmem
        simp only [decide_eq_true_eq] at this
        omega
    simp [h1, h2, h3, h4, h5, hallfalse]

/-- Witness for C9: from a bucket where `alice` already has 3 entries, a new
failure from the same IP and minute (even a fresh user) yields no AUTH002. -/
theorem auth002_overlimit_never_fires_witness :
    (sprayStep 4 2 (sprayRun 4 2 sprayOverSt [])
      { ts := "2026-01-12T09:00:30Z", eid := "y1", etype := "auth",
        action := "ssh_login", outcome := "failure", user := some "bob",
        srcIp := some "203.0.113.99", geo := none }).2 = none :=
  auth002_overlimit_never_fires 4 2 sprayOverSt "203.0.113.99" "2026-01-12T09:00" "alice"
    (by decide) []
    { ts := "2026-01-12T09:00:30Z", eid := "y1", etype := "auth",
      action := "ssh_login", outcome := "failure", user := some "bob",
      srcIp := some "203.0.113.99", geo := none }
    (by decide) (by decide)

/-! ## AUTH004 — `OffHoursLoginRule` (`server/detect/engine.py`) -/

/-- Numeric value of a digit character. -/
def digitVal (c : Char) : Nat := c.toNat - 48

/-- The UTC hour of an RFC3339 `...Z` timestamp (`parse_ts(ts).hour` for the
`YYYY-MM-DDTHH:MM:SSZ` strings this system produces): the two digits at
positions 11–12. -/
def utcHour (ts : String) : Nat :=
  digitVal (ts.data.getD 11 '0') * 10 + digitVal (ts.data.getD 12 '0')

/-- Structural well-formedness of a second-precision RFC3339 UTC timestamp
`YYYY-MM-DDTHH:MM:SSZ` (the only shape `parse_ts` receives from this
pipeline; on other strings the Python code raises instead of detecting). -/
def isRfc3339Z (ts : String) : Bool :=
  match ts.data with
  | [y1, y2, y3, y4, s1, mo1, mo2, s2, d1, d2, t, h1, h2, c1, mi1, mi2, c2, se1, se2, z] =>
      y1.isDigit && y2.isDigit && y3.isDigit && y4.isDigit && s1 = '-' &&
      mo1.isDigit && mo2.isDigit && s2 = '-' && d1.isDigit && d2.isDigit &&
      t = 'T' && h1.isDigit && h2.isDigit && digitVal h1 * 10 + digitVal h2 ≤ 23 &&
      c1 = ':' && mi1.isDigit && mi2.isDigit && digitVal mi1 * 10 + digitVal mi2 ≤ 59 &&
      c2 = ':' && se1.isDigit && se2.isDigit && digitVal se1 * 10 + digitVal se2 ≤ 59 &&
      z = 'Z'
  | _ => false

/-- `OffHoursLoginRule.on_event` with `start_hour` (default 8) and `end_hour`
(default 18): on an auth/ssh_login success carrying a user, fire iff the UTC
hour is `< start_hour` or `≥ end_hour`, with entity `user:<name>`. The rule
is stateless. -/
def offStep (startH endH : Nat) (ev : Ev) : Option Detection :=
  if ev.etype = "auth" && ev.action = "ssh_login" then
    if ev.outcome = "success" then
      if present ev.user then
        if utcHour ev.ts < startH ∨ endH ≤ utcHour ev.ts then
          some { rule_id := "AUTH004", title := "Off-hours successful login",
                 severity := 6, entity := "user:" ++ ev.user.getD "",
                 event_ids := [ev.eid], bucket := bucketMinute ev.ts }
        else none
      else none
    else none
  else none

/-- C7. `OffHoursLoginRule.on_event` (AUTH004) fires on a successful
ssh_login carrying a user exactly when the UTC hour `h` of the event's `ts`
satisfies `h < 8` or `h ≥ 18`; an event at hour exactly 18 fires and one at
hour exactly 8 does not. -/
theorem auth004_off_hours_spec :
    (∀ (ev : Ev) (u : String),
      ev.etype = "auth" → ev.action = "ssh_login" → ev.outcome = "success" →
      ev.user = some u → ¬u = "" → isRfc3339Z ev.ts = true →
        ((offStep 8 18 ev).isSome ↔ (utcHour ev.ts < 8 ∨ 18 ≤ utcHour ev.ts))
        ∧ (∀ d, offStep 8 18 ev = some d →
            d.entity = "user:" ++ u ∧ d.event_ids = [ev.eid] ∧ d.rule_id = "AUTH004"))
    ∧ (offStep 8 18
        { ts := "2026-01-12T18:00:00Z", eid := "b1", etype := "auth",
          action := "ssh_login", outcome := "success", user := some "pi",
          srcIp := some "10.0.0.5", geo := none }) =
        some { rule_id := "AUTH004", title := "Off-hours successful login",
               severity := 6, entity := "user:pi", event_ids := ["b1"],
               bucket := "2026-01-12T18:00" }
    ∧ (offStep 8 18
        { ts := "2026-01-12T08:00:00Z", eid := "b2", etype := "auth",
          action := "ssh_login", outcome := "success", user := some "pi",
          srcIp := some "10.0.0.5", geo := none }) = none := by
  refine ⟨?_, by decide, by decide⟩
  intro ev u h1 h2 h3 hu hne _
  have hp : present ev.user = true := by rw [hu]; simpa [present] using hne
  constructor
  · simp only [offStep, h1, h2, h3, hp]
    by_cases hh : utcHour ev.ts < 8 ∨ 18 ≤ utcHour ev.ts
    · simp [hh]
    · simp [hh]
  · intro d hd
    simp only [offStep, h1, h2, h3, hp] at hd
    by_cases hh : utcHour ev.ts < 8 ∨ 18 ≤ utcHour ev.ts
    · rw [if_pos hh] at hd
      simp only [decide_True, Bool.and_self, if_true] at hd
      have hxd := Option.some.inj hd
      rw [← hxd]
      exact ⟨by rw [hu]; rfl, rfl, rfl⟩
    · rw [if_neg hh] at hd
      simp at hd

/-- Witness for C7: the characterization instantiated at a 03:15 success
(scenario 4 of the spec), which is off-hours. -/
theorem auth004_off_hours_spec_witness :
    ((offStep 8 18
        { ts := "2026-01-12T03:15:00Z", eid := "c1", etype := "auth",
          action := "ssh_login", outcome := "success", user := some "pi",
          srcIp := none, geo := none }).isSome
      ↔ (utcHour "2026-01-12T03:15:00Z" < 8 ∨ 18 ≤ utcHour "2026-01-12T03:15:00Z")) :=
  (auth004_off_hours_spec.1
    { ts := "2026-01-12T03:15:00Z", eid := "c1", etype := "auth",
      action := "ssh_login", outcome := "success", user := some "pi",
      srcIp := none, geo := none } "pi"
    rfl rfl rfl rfl (by decide) (by decide)).1

/-! ## Replay driver (`minisoc/replay.py`) -/

/-- `ReplayStats` (`replay.py`). -/
structure ReplayStats where
  sent : Nat
  failed : Nat
deriving DecidableEq, Repr

/-- The payload lines `iter_jsonl` yields: each line stripped, dropping
empty lines and lines starting with `#`. -/
def replayPayloads (lines : List String) : List String :=
  (lines.map String.trim).filter (fun l => !(l = "" || l.startsWith "#"))

/-- `replay_scenario`, with the HTTP POST abstracted by `post` (`true` =
status < 400 and no exception): every payload increments `sent` before the
attempt; a failed POST additionally increments `failed`. -/
def replay_scenario_model (post : String → Bool) (lines : List String) : ReplayStats :=
  (replayPayloads lines).foldl
    (fun s p => { sent := s.sent + 1, failed := s.failed + (if post p then 0 else 1) })
    { sent := 0, failed := 0 }

/-- The default of `replay_scenario`'s `delay_s` parameter (seconds). -/
def replayDelayDefault : ℚ := 0.05

theorem replayFold (post : String → Bool) (ps : List String) :
    ∀ s : ReplayStats,
      ps.foldl (fun s p => ReplayStats.mk (s.sent + 1) (s.failed + (if post p then 0 else 1))) s
        = { sent := s.sent + ps.length,
            failed := s.failed + (ps.filter (fun p => !post p)).length } := by
  induction ps with
  | nil => intro s; simp
  | cons p rest ih =>
    intro s
    rw [List.foldl_cons, ih]
    rcases hp : post p with _ | _ <;> simp [List.filter_cons, hp] <;> omega

/-- Counterexample to C10 as stated: `replay_scenario`'s default inter-event
delay is 0.05 s (50 ms), not 20 ms. -/
theorem replay_delay_not_20ms :
    replayDelayDefault = 5 / 100 ∧ ¬(replayDelayDefault = 2 / 100) := by
  constructor <;> norm_num [replayDelayDefault]

/-- C10 (amended). `replay_scenario` POSTs each payload from a non-blank
line not starting with `#`, with a configurable inter-event delay whose
default is 0.05 s = 50 ms (the 20 ms default belongs to the CLI `--delay-s`
flag), and returns `ReplayStats` where `sent` counts all attempted payloads
and `failed` counts the POSTs that failed. -/
theorem replay_scenario_spec :
    ∀ (post : String → Bool) (lines : List String),
      (replay_scenario_model post lines).sent = (replayPayloads lines).length
      ∧ (replay_scenario_model post lines).failed
          = ((replayPayloads lines).filter (fun p => !post p)).length
      ∧ replayDelayDefault = 1 / 20 := by
  intro post lines
  rw [replay_scenario_model, replayFold]
  refine ⟨by simp, by simp, by norm_num [replayDelayDefault]⟩

/-! ## Event-schema validation (`minisoc/common/schema.py`) -/

/-- The validated core of the `Event` sub-model. -/
structure EventCore where
  etype : String
  action : String
  outcome : String
  severity : Int
deriving DecidableEq, Repr

/-- The raw JSON fields of an incoming `event` object (absent = `none`). -/
structure RawEventFields where
  etype : Option String
  action : Option String
  outcome : Option String
  severity : Option Int

/-- The `Literal` values admitted for `outcome`. -/
def outcomeLiterals : List String := ["success", "failure", "unknown"]

/-- Pydantic validation of the `Event` model (`common/schema.py`):
`type: str` and `action: str` are required, `outcome` is a literal of
`outcomeLiterals` with default `"unknown"`, and `severity: int` defaults
to 3. The model declares no range constraint on `severity`. -/
def validate_event (r : RawEventFields) : Except (List String) EventCore :=
  let errs :=
    (if r.etype.isNone then ["type: field required"] else []) ++
    (if r.action.isNone then ["action: field required"] else []) ++
    (match r.outcome with
     | none => []
     | some o => if o ∈ outcomeLiterals then []
                 else ["outcome: input should be success, failure or unknown"])
  match r.etype, r.action, errs with
  | some t, some a, [] =>
      Except.ok { etype := t, action := a, outcome := r.outcome.getD "unknown",
                  severity := r.severity.getD 3 }
  | _, _, _ => Except.error errs

/-- Counterexample to C6 as stated: an event whose `severity` is 0 (and 11,
and −3) passes schema validation — `severity` has no `[1,10]` bound, so such
a POST is not rejected. -/
theorem severity_out_of_range_accepted :
    validate_event { etype := some "auth", action := some "ssh_login",
                     outcome := some "failure", severity := some 0 }
      = Except.ok { etype := "auth", action := "ssh_login",
                    outcome := "failure", severity := 0 }
    ∧ validate_event { etype := some "auth", action := some "ssh_login",
                       outcome := some "failure", severity := some 11 }
      = Except.ok { etype := "auth", action := "ssh_login",
                    outcome := "failure", severity := 11 }
    ∧ validate_event { etype := some "auth", action := some "ssh_login",
                       outcome := some "failure", severity := some (-3) }
      = Except.ok { etype := "auth", action := "ssh_login",
                    outcome := "failure", severity := -3 } :=
  ⟨rfl, rfl, rfl⟩

/-- C6 (amended). The schema does not constrain `severity` to `[1,10]`: an
otherwise well-formed event with any integer severity validates (and is then
persisted by `/ingest` with that severity); validation does reject a missing
required field or an `outcome` outside `{success, failure, unknown}`. -/
theorem event_severity_unconstrained :
    (∀ (t a o : String) (n : Int), o ∈ outcomeLiterals →
      validate_event { etype := some t, action := some a,
                       outcome := some o, severity := some n }
        = Except.ok { etype := t, action := a, outcome := o, severity := n })
    ∧ validate_event { etype := some "auth", action := some "ssh_login",
                       outcome := some "invalid", severity := some 5 }
        = Except.error ["outcome: input should be success, failure or unknown"]
    ∧ validate_event { etype := none, action := some "ssh_login",
                       outcome := none, severity := none }
        = Except.error ["type: field required"] := by
  refine ⟨?_, rfl, rfl⟩
  intro t a o n ho
  simp [validate_event, ho]

/-- Witness for C6 (amended): a severity-0 event with a valid outcome
validates. -/
theorem event_severity_unconstrained_witness :
    validate_event { etype := some "auth", action := some "ssh_login",
                     outcome := some "unknown", severity := some 0 }
      = Except.ok { etype := "auth", action := "ssh_login",
                    outcome := "unknown", severity := 0 } :=
  event_severity_unconstrained.1 "auth" "ssh_login" "unknown" 0 (by decide)

/-! ## `haversine_km` (`server/detect/engine.py`), modelled over `ℝ` -/

/-- `math.radians`. -/
noncomputable def radians (x : ℝ) : ℝ := x * Real.pi / 180

/-- `haversine_km`: great-circle distance with Earth radius 6371 km, over
the real-number semantics of the float computation. -/
noncomputable def haversine_km (lat1 lon1 lat2 lon2 : ℝ) : ℝ :=
  let r : ℝ := 6371
  let p1 := radians lat1
  let p2 := radians lat2
  let dphi := radians (lat2 - lat1)
  let dlambda := radians (lon2 - lon1)
  let a := Real.sin (dphi / 2) ^ 2 + Real.cos p1 * Real.cos p2 * Real.sin (dlambda / 2) ^ 2
  2 * r * Real.arcsin (Real.sqrt a)

/-- C8. The haversine distance between identical coordinates is 0, and the
distance from (0°, 0°) to (0°, 180°) is within 1 km of 20015 km. -/
theorem haversine_km_spec :
    (∀ lat lon : ℝ, haversine_km lat lon lat lon = 0)
    ∧ |haversine_km 0 0 0 180 - 20015| ≤ 1 := by
  constructor
  · intro lat lon
    simp [haversine_km, radians, sub_self]
  · have h1 : haversine_km 0 0 0 180 = 6371 * Real.pi := by
      simp only [haversine_km, radians]
      have hz : (0 : ℝ) * Real.pi / 180 = 0 := by ring
      have hzz : ((0 : ℝ) - 0) * Real.pi / 180 = 0 := by ring
      have hl : ((180 : ℝ) - 0) * Real.pi / 180 / 2 = Real.pi / 2 := by ring
      rw [hz, hzz, hl]
      simp [Real.sin_pi_div_two, Real.cos_zero, Real.sqrt_one, Real.arcsin_one]
      ring
    rw [h1, abs_le]
    have hlo := Real.pi_gt_d6
    have hhi := Real.pi_lt_d6
    constructor <;> nlinarith

/-! ## Alert router (`server/alerting/notifier.py`) -/

/-- Router state: the `DedupeCache`'s `_seen` map (`alert_id -> seen time`)
and the `Router`'s `_suppressed` counters, as finite partial maps. Wall
clock instants are abstract `Nat` time points; the cache TTL is in the same
units. -/
structure RouterSt where
  seen : String → Option Nat
  supp : String → Option Nat

/-- `DedupeCache._prune`: keep entries whose seen time `t` satisfies
`t ≥ now - ttl`, i.e. `now ≤ t + ttl`. -/
def pruneSeen (ttl now : Nat) (f : String → Option Nat) : String → Option Nat :=
  fun k => match f k with
    | some t => if now ≤ t + ttl then some t else none
    | none => none

/-- `Router.route` at wall time `now` for alert id `aid`, returning the new
state and `some n` when the notifier is invoked with `suppressed_repeats = n`
(`none` when the alert is suppressed). With `ttl = 0` the cache never
reports seen and `mark_seen_now` is a no-op; otherwise `seen()` prunes by
`now`, and a hit increments the suppressed counter while a miss notifies
with the popped counter and marks the id seen at `now`. -/
def routeStep (ttl : Nat) (st : RouterSt) (now : Nat) (aid : String) : RouterSt × Option Nat :=
  if ttl = 0 then
    ({ seen := st.seen, supp := fun k => if k = aid then none else st.supp k },
     some ((st.supp aid).getD 0))
  else
    let s' := pruneSeen ttl now st.seen
    match s' aid with
    | some _ =>
        ({ seen := s',
           supp := fun k => if k = aid then some ((st.supp aid).getD 0 + 1) else st.supp k },
         none)
    | none =>
        ({ seen := fun k => if k = aid then some now else s' k,
           supp := fun k => if k = aid then none else st.supp k },
         some ((st.supp aid).getD 0))

/-- Run a sequence of `(time, alert_id)` route calls, collecting the
notifications `(time, alert_id, suppressed_repeats)`. -/
def routeRun (ttl : Nat) (st : RouterSt) :
    List (Nat × String) → RouterSt × List (Nat × String × Nat)
  | [] => (st, [])
  | (now, aid) :: rest =>
      let step := routeStep ttl st now aid
      let tail := routeRun ttl step.1 rest
      (tail.1,
       (match step.2 with | some n => [(now, aid, n)] | none => []) ++ tail.2)

/-- The number of route calls for `aid` in a call sequence. -/
def countAid (aid : String) (calls : List (Nat × String)) : Nat :=
  (calls.filter (fun c => c.2 = aid)).length

theorem pruneSeen_keep (ttl now : Nat) (f : String → Option Nat) (aid : String) (t : Nat)
    (hf : f aid = some t) (h : now ≤ t + ttl) : pruneSeen ttl now f aid = some t := by
  simp [pruneSeen, hf, h]

theorem pruneSeen_drop (ttl now : Nat) (f : String → Option Nat) (aid : String) (t : Nat)
    (hf : f aid = some t) (h : ¬now ≤ t + ttl) : pruneSeen ttl now f aid = none := by
  simp [pruneSeen, hf, h]

/-- A route call at `now` leaves the `aid` entries of `seen` and `supp`
intact when it concerns a different id and `now` is within `aid`'s TTL. -/
theorem routeStep_other (ttl now : Nat) (st : RouterSt) (aid b : String) (τ0 : Nat)
    (h0 : 0 < ttl) (hne : ¬b = aid) (hseen : st.seen aid = some τ0)
    (hin : now ≤ τ0 + ttl) :
    (routeStep ttl st now b).1.seen aid = some τ0
    ∧ (routeStep ttl st now b).1.supp aid = st.supp aid := by
  have hkeep := pruneSeen_keep ttl now st.seen aid τ0 hseen hin
  have hne' : ¬aid = b := fun h => hne h.symm
  simp only [routeStep, if_neg (Nat.pos_iff_ne_zero.mp h0)]
  match hm : pruneSeen ttl now st.seen b with
  | some t => simp [hkeep, hne']
  | none => simp [hkeep, hne']

theorem pruneSeen_some_inv (ttl now : Nat) (f : String → Option Nat) (aid : String) (t : Nat)
    (hm : pruneSeen ttl now f aid = some t) : f aid = some t ∧ now ≤ t + ttl := by
  simp only [pruneSeen] at hm
  rcases hs : f aid with _ | t'
  · rw [hs] at hm
    simp at hm
  · rw [hs] at hm
    simp only at hm
    split at hm
    case isTrue hcond =>
      obtain rfl := Option.some.inj hm
      exact ⟨rfl, hcond⟩
    case isFalse hcond => cases hm

theorem routeStep_hit (ttl now : Nat) (st : RouterSt) (aid : String) (τ0 : Nat)
    (h0 : 0 < ttl) (hseen : st.seen aid = some τ0) (hin : now ≤ τ0 + ttl) :
    routeStep ttl st now aid =
      ({ seen := pruneSeen ttl now st.seen,
         supp := fun k => if k = aid then some ((st.supp aid).getD 0 + 1) else st.supp k },
       none) := by
  have hkeep := pruneSeen_keep ttl now st.seen aid τ0 hseen hin
  simp [routeStep, Nat.pos_iff_ne_zero.mp h0, hkeep]

theorem routeStep_miss (ttl now : Nat) (st : RouterSt) (aid : String)
    (h0 : 0 < ttl) (hmiss : pruneSeen ttl now st.seen aid = none) :
    routeStep ttl st now aid =
      ({ seen := fun k => if k = aid then some now else pruneSeen ttl now st.seen k,
         supp := fun k => if k = aid then none else st.supp k },
       some ((st.supp aid).getD 0)) := by
  simp [routeStep, Nat.pos_iff_ne_zero.mp h0, hmiss]

/-- Across any sequence of route calls all within `aid`'s TTL window, `aid`
is never notified, its seen time stays put, and its suppressed counter grows
by one per `aid` call. -/
theorem routeRun_within (ttl : Nat) (aid : String) (τ0 : Nat) (h0 : 0 < ttl) :
    ∀ (calls : List (Nat × String)), (∀ c ∈ calls, c.1 ≤ τ0 + ttl) →
      ∀ st : RouterSt, st.seen aid = some τ0 →
        (routeRun ttl st calls).1.seen aid = some τ0
        ∧ ((routeRun ttl st calls).1.supp aid).getD 0
            = (st.supp aid).getD 0 + countAid aid calls
        ∧ ∀ x ∈ (routeRun ttl st calls).2, ¬(x.2.1 = aid) := by
  intro calls
  induction calls with
  | nil => intro _ st hseen; simp [routeRun, countAid, hseen]
  | cons c rest ih =>
    intro hbound st hseen
    rcases c with ⟨now, b⟩
    have hnow : now ≤ τ0 + ttl := hbound (now, b) (List.mem_cons_self _ _)
    have hrest : ∀ c ∈ rest, c.1 ≤ τ0 + ttl :=
      fun c hc => hbound c (List.mem_cons_of_mem _ hc)
    by_cases hb : b = aid
    · subst hb
      have hseen' : (routeStep ttl st now b).1.seen b = some τ0 := by
        rw [routeStep_hit ttl now st b τ0 h0 hseen hnow]
        exact pruneSeen_keep ttl now st.seen b τ0 hseen hnow
      have hsupp' : (routeStep ttl st now b).1.supp b
          = some ((st.supp b).getD 0 + 1) := by
        rw [routeStep_hit ttl now st b τ0 h0 hseen hnow]
        simp
      have hout : (routeStep ttl st now b).2 = none := by
        rw [routeStep_hit ttl now st b τ0 h0 hseen hnow]
      obtain ⟨ihs, ihc, ihn⟩ := ih hrest _ hseen'
      rw [routeRun]
      refine ⟨ihs, ?_, ?_⟩
      · rw [ihc, hsupp']
        simp [countAid, List.filter_cons]
        omega
      · rw [hout]
        simpa using ihn
    · obtain ⟨hso, hsu⟩ := routeStep_other ttl now st aid b τ0 h0 hb hseen hnow
      obtain ⟨ihs, ihc, ihn⟩ := ih hrest _ hso
      rw [routeRun]
      refine ⟨ihs, ?_, ?_⟩
      · rw [ihc, hsu]
        simp [countAid, List.filter_cons, hb]
      · intro x hx
        simp only [List.mem_append] at hx
        rcases hx with hx | hx
        · rcases hstep : (routeStep ttl st now b).2 with _ | n
          · rw [hstep] at hx
            simp at hx
          · rw [hstep] at hx
            simp only [List.mem_singleton] at hx
            subst hx
            simpa using hb
        · exact ihn x hx

/-- C2. With a `DedupeCache` of TTL `t > 0`: a notification marks the id
seen at routing time `now`, hands the notifier the accumulated
suppressed-repeat count, and resets the counter; every suppressed call
increments the per-id counter; a call within `t` of the recorded seen time
is suppressed (and across a whole within-TTL call sequence the id is never
notified, the counter accumulating one per call); and the first call after
the TTL has elapsed notifies with the accumulated count (and resets it). -/
theorem router_dedupe_spec :
    ∀ ttl : Nat, 0 < ttl →
      (∀ (st : RouterSt) (now : Nat) (aid : String) (n : Nat),
        (routeStep ttl st now aid).2 = some n →
          n = (st.supp aid).getD 0
          ∧ (routeStep ttl st now aid).1.seen aid = some now
          ∧ (routeStep ttl st now aid).1.supp aid = none)
      ∧ (∀ (st : RouterSt) (now : Nat) (aid : String),
          (routeStep ttl st now aid).2 = none →
            (routeStep ttl st now aid).1.supp aid
              = some ((st.supp aid).getD 0 + 1))
      ∧ (∀ (aid : String) (τ0 : Nat) (calls : List (Nat × String)),
          (∀ c ∈ calls, c.1 ≤ τ0 + ttl) →
          ∀ st : RouterSt, st.seen aid = some τ0 →
            (routeRun ttl st calls).1.seen aid = some τ0
            ∧ ((routeRun ttl st calls).1.supp aid).getD 0
                = (st.supp aid).getD 0 + countAid aid calls
            ∧ ∀ x ∈ (routeRun ttl st calls).2, ¬(x.2.1 = aid))
      ∧ (∀ (st : RouterSt) (now : Nat) (aid : String) (τ0 : Nat),
          st.seen aid = some τ0 → now ≤ τ0 + ttl →
            (routeStep ttl st now aid).2 = none)
      ∧ (∀ (st : RouterSt) (now : Nat) (aid : String) (τ0 : Nat),
          st.seen aid = some τ0 → τ0 + ttl < now →
            (routeStep ttl st now aid).2 = some ((st.supp aid).getD 0)
            ∧ (routeStep ttl st now aid).1.supp aid = none
            ∧ (routeStep ttl st now aid).1.seen aid = some now) := by
  intro ttl h0
  refine ⟨?_, ?_, ?_, ?_, ?_⟩
  · intro st now aid n hn
    rcases hm : pruneSeen ttl now st.seen aid with _ | t
    · rw [routeStep_miss ttl now st aid h0 hm] at hn ⊢
      simp at hn ⊢
      exact hn.symm
    · obtain ⟨hseen, hin⟩ := pruneSeen_some_inv ttl now st.seen aid t hm
      rw [routeStep_hit ttl now st aid t h0 hseen hin] at hn
      cases hn
  · intro st now aid hn
    rcases hm : pruneSeen ttl now st.seen aid with _ | t
    · rw [routeStep_miss ttl now st aid h0 hm] at hn
      cases hn
    · obtain ⟨hseen, hin⟩ := pruneSeen_some_inv ttl now st.seen aid t hm
      rw [routeStep_hit ttl now st aid t h0 hseen hin]
      simp
  · intro aid τ0 calls hbound st hseen
    exact routeRun_within ttl aid τ0 h0 calls hbound st hseen
  · intro st now aid τ0 hseen hin
    rw [routeStep_hit ttl now st aid τ0 h0 hseen hin]
  · intro st now aid τ0 hseen hlate
    have hdrop := pruneSeen_drop ttl now st.seen aid τ0 hseen (by omega)
    rw [routeStep_miss ttl now st aid h0 hdrop]
    simp

/-- A concrete router state: `"a"` seen at time 10 with 2 suppressed
repeats accumulated. -/
def routerDemoSt : RouterSt :=
  { seen := fun k => if k = "a" then some 10 else none,
    supp := fun k => if k = "a" then some 2 else none }

/-- Witness for C2: at time 100 > 10 + 60, routing `"a"` notifies with the
2 accumulated suppressed repeats and resets the counter. -/
theorem router_dedupe_spec_witness :
    (routeStep 60 routerDemoSt 100 "a").2 = some ((routerDemoSt.supp "a").getD 0)
    ∧ (routeStep 60 routerDemoSt 100 "a").1.supp "a" = none
    ∧ (routeStep 60 routerDemoSt 100 "a").1.seen "a" = some 100 :=
  (router_dedupe_spec 60 (by decide)).2.2.2.2 routerDemoSt 100 "a" 10
    (by decide) (by decide)

/-! ## SSH auth-log parser (`agent/tail_auth.py`)

The two regexes, tried in order:
`SSH_FAIL = Failed password for (?P<user>\S+) from (?P<ip>\d+\.\d+\.\d+\.\d+) port (?P<port>\d+)`
`SSH_OK   = Accepted \S+ for (?P<user>\S+) from (?P<ip>\d+\.\d+\.\d+\.\d+) port (?P<port>\d+)`
searched (leftmost match) after stripping the syslog prefix
`^[A-Z][a-z]{2}\s+\d+\s+\d{2}:\d{2}:\d{2}\s+\S+\s+`. In these patterns every
greedy piece (`\S+`, `\d+`, `\s+`) is followed by a character its class
cannot match, so the maximal-run matcher below is exactly the backtracking
semantics. Character classes are the ASCII ones. -/

/-- The regex class `\s` (ASCII). -/
def isWS (c : Char) : Bool :=
  c = ' ' || c = '\t' || c = '\n' || c = '\x0b' || c = '\x0c' || c = '\r'

/-- `[A-Z]`. -/
def isUpper (c : Char) : Bool := 'A' ≤ c && c ≤ 'Z'

/-- `[a-z]`. -/
def isLower (c : Char) : Bool := 'a' ≤ c && c ≤ 'z'

/-- Maximal prefix run of characters satisfying `p`, with the rest. -/
def takeRun (p : Char → Bool) : List Char → List Char × List Char
  | [] => ([], [])
  | c :: cs =>
      if p c then
        let r := takeRun p cs
        (c :: r.1, r.2)
      else ([], c :: cs)

/-- Expect a literal prefix; return the remainder. -/
def dropLit : List Char → List Char → Option (List Char)
  | [], cs => some cs
  | _ :: _, [] => none
  | l :: ls, c :: cs => if c = l then dropLit ls cs else none

/-- `\d+`: a nonempty maximal digit run. -/
def takeDigits1 (cs : List Char) : Option (List Char × List Char) :=
  let r := takeRun Char.isDigit cs
  if r.1.isEmpty then none else some r

/-- `\d+\.\d+\.\d+\.\d+`: a dotted-quad digit group; returns the matched
text and the remainder. -/
def matchIp (cs : List Char) : Option (String × List Char) := do
  let (d1, cs) ← takeDigits1 cs
  let cs ← dropLit ['.'] cs
  let (d2, cs) ← takeDigits1 cs
  let cs ← dropLit ['.'] cs
  let (d3, cs) ← takeDigits1 cs
  let cs ← dropLit ['.'] cs
  let (d4, cs) ← takeDigits1 cs
  some (String.mk (d1 ++ '.' :: (d2 ++ '.' :: (d3 ++ '.' :: d4))), cs)

/-- `SSH_FAIL` matched at the start of `cs`: `(user, ip, port digits)`. -/
def matchFailAt (cs : List Char) : Option (String × String × String) := do
  let cs ← dropLit "Failed password for ".data cs
  let (u, cs) := takeRun (fun c => !isWS c) cs
  if u.isEmpty then none else do
  let cs ← dropLit " from ".data cs
  let (ipStr, cs) ← matchIp cs
  let cs ← dropLit " port ".data cs
  let (p, _) := takeRun Char.isDigit cs
  if p.isEmpty then none else
  some (String.mk u, ipStr, String.mk p)

/-- `SSH_OK` matched at the start of `cs`. -/
def matchOkAt (cs : List Char) : Option (String × String × String) := do
  let cs ← dropLit "Accepted ".data cs
  let (m, cs) := takeRun (fun c => !isWS c) cs
  if m.isEmpty then none else do
  let cs ← dropLit " for ".data cs
  let (u, cs) := takeRun (fun c => !isWS c) cs
  if u.isEmpty then none else do
  let cs ← dropLit " from ".data cs
  let (ipStr, cs) ← matchIp cs
  let cs ← dropLit " port ".data cs
  let (p, _) := takeRun Char.isDigit cs
  if p.isEmpty then none else
  some (String.mk u, ipStr, String.mk p)

/-- `re.search` with `SSH_FAIL`: the match at the leftmost position. -/
def searchFail : List Char → Option (String × String × String)
  | [] => none
  | c :: cs =>
      match matchFailAt (c :: cs) with
      | some r => some r
      | none => searchFail cs

/-- `re.search` with `SSH_OK`. -/
def searchOk : List Char → Option (String × String × String)
  | [] => none
  | c :: cs =>
      match matchOkAt (c :: cs) with
      | some r => some r
      | none => searchOk cs

/-- The anchored syslog-prefix regex of `_strip_syslog_prefix`; `some rest`
when it matches, `rest` being the text after the stripped prefix. -/
def matchSyslogPrefix (cs : List Char) : Option (List Char) :=
  match cs with
  | c1 :: c2 :: c3 :: rest =>
      if isUpper c1 && isLower c2 && isLower c3 then
        let (w1, rest) := takeRun isWS rest
        if w1.isEmpty then none else
        let (d, rest) := takeRun Char.isDigit rest
        if d.isEmpty then none else
        let (w2, rest) := takeRun isWS rest
        if w2.isEmpty then none else
        match rest with
        | h1 :: h2 :: c4 :: m1 :: m2 :: c5 :: s1 :: s2 :: rest2 =>
            if h1.isDigit && h2.isDigit && c4 = ':' && m1.isDigit && m2.isDigit &&
                c5 = ':' && s1.isDigit && s2.isDigit then
              let (w3, rest2) := takeRun isWS rest2
              if w3.isEmpty then none else
              let (tok, rest2) := takeRun (fun c => !isWS c) rest2
              if tok.isEmpty then none else
              let (w4, rest2) := takeRun isWS rest2
              if w4.isEmpty then none else
              some rest2
            else none
        | _ => none
      else none
  | _ => none

/-- `_strip_syslog_prefix` (`re.sub` of the anchored prefix with `""`). -/
def stripSyslogPrefix (cs : List Char) : List Char :=
  match matchSyslogPrefix cs with
  | some rest => rest
  | none => cs

/-- The fields of the `NormalizedEvent` built by `parse_sshd_line` that are
determined by the line (the timestamp and event id are fresh per call). -/
structure ParsedSSH where
  outcome : String
  severity : Nat
  userName : String
  srcIp : String
  srcPort : Nat
  tags : List String
deriving DecidableEq, Repr

/-- Digit-string value (`int(port)`). -/
def natOfDigits (ds : List Char) : Nat := ds.foldl (fun n c => n * 10 + digitVal c) 0

/-- `parse_sshd_line`: strip the syslog prefix, try `SSH_FAIL` then
`SSH_OK`; failure gives severity 4, success severity 3; other lines give
`None`. -/
def parse_sshd_line (line : String) : Option ParsedSSH :=
  let cs := stripSyslogPrefix line.data
  match searchFail cs with
  | some r =>
      some { outcome := "failure", severity := 4, userName := r.1, srcIp := r.2.1,
             srcPort := natOfDigits r.2.2.data, tags := ["ssh", "auth", "failure"] }
  | none =>
      match searchOk cs with
      | some r =>
          some { outcome := "success", severity := 3, userName := r.1, srcIp := r.2.1,
                 srcPort := natOfDigits r.2.2.data, tags := ["ssh", "auth", "success"] }
      | none => none

theorem dropLit_pref (l rest : List Char) : dropLit l (l ++ rest) = some rest := by
  induction l with
  | nil => rfl
  | cons c ls ih => simp [dropLit, ih]

theorem dropLit_single (c : Char) (rest : List Char) : dropLit [c] (c :: rest) = some rest := by
  simp [dropLit]

theorem takeRun_stop (p : Char → Bool) (u rest : List Char)
    (hall : ∀ c ∈ u, p c = true)
    (hstop : rest = [] ∨ ∃ c cs', rest = c :: cs' ∧ p c = false) :
    takeRun p (u ++ rest) = (u, rest) := by
  induction u with
  | nil =>
    rcases hstop with rfl | ⟨c, cs', rfl, hc⟩
    · rfl
    · simp [takeRun, hc]
  | cons a u ih =>
    have ha := hall a (List.mem_cons_self a u)
    have ih' := ih (fun c hc => hall c (List.mem_cons_of_mem a hc))
    simp [takeRun, ha, ih']

theorem isEmpty_false_of_ne {l : List Char} (h : l ≠ []) : l.isEmpty = false := by
  cases l with
  | nil => exact absurd rfl h
  | cons a l => rfl

/-- The dotted-quad matcher on a dotted quad followed by a non-digit (or
nothing). -/
theorem matchIp_pos (d1 d2 d3 d4 rest : List Char)
    (h1 : d1 ≠ []) (hd1 : ∀ c ∈ d1, c.isDigit = true)
    (h2 : d2 ≠ []) (hd2 : ∀ c ∈ d2, c.isDigit = true)
    (h3 : d3 ≠ []) (hd3 : ∀ c ∈ d3, c.isDigit = true)
    (h4 : d4 ≠ []) (hd4 : ∀ c ∈ d4, c.isDigit = true)
    (hrest : rest = [] ∨ ∃ c cs', rest = c :: cs' ∧ c.isDigit = false) :
    matchIp (d1 ++ ('.' :: (d2 ++ ('.' :: (d3 ++ ('.' :: (d4 ++ rest)))))))
      = some (String.mk (d1 ++ '.' :: (d2 ++ '.' :: (d3 ++ '.' :: d4))), rest) := by
  have ht1 := takeRun_stop Char.isDigit d1 ('.' :: (d2 ++ ('.' :: (d3 ++ ('.' :: (d4 ++ rest))))))
    hd1 (Or.inr ⟨'.', _, rfl, by decide⟩)
  have ht2 := takeRun_stop Char.isDigit d2 ('.' :: (d3 ++ ('.' :: (d4 ++ rest))))
    hd2 (Or.inr ⟨'.', _, rfl, by decide⟩)
  have ht3 := takeRun_stop Char.isDigit d3 ('.' :: (d4 ++ rest))
    hd3 (Or.inr ⟨'.', _, rfl, by decide⟩)
  have ht4 := takeRun_stop Char.isDigit d4 rest hd4 hrest
  simp only [matchIp, takeDigits1, List.append_assoc, List.cons_append, List.nil_append] at *
  simp [ht1, ht2, ht3, ht4, h1, h2, h3, h4, dropLit_single]

/-- `SSH_FAIL` matches at the start of a well-shaped failure line. -/
theorem matchFailAt_pos (u d1 d2 d3 d4 p suffix : List Char)
    (hu : u ≠ []) (huw : ∀ c ∈ u, isWS c = false)
    (h1 : d1 ≠ []) (hd1 : ∀ c ∈ d1, c.isDigit = true)
    (h2 : d2 ≠ []) (hd2 : ∀ c ∈ d2, c.isDigit = true)
    (h3 : d3 ≠ []) (hd3 : ∀ c ∈ d3, c.isDigit = true)
    (h4 : d4 ≠ []) (hd4 : ∀ c ∈ d4, c.isDigit = true)
    (hp : p ≠ []) (hpd : ∀ c ∈ p, c.isDigit = true)
    (hsuf : suffix = [] ∨ ∃ c cs', suffix = c :: cs' ∧ c.isDigit = false) :
    matchFailAt ("Failed password for ".data ++ (u ++ (" from ".data ++
        (d1 ++ ('.' :: (d2 ++ ('.' :: (d3 ++ ('.' :: (d4 ++
          (" port ".data ++ (p ++ suffix))))))))))))
      = some (String.mk u, String.mk (d1 ++ '.' :: (d2 ++ '.' :: (d3 ++ '.' :: d4))),
              String.mk p) := by
  have htu := takeRun_stop (fun c => !isWS c) u
    (" from ".data ++ (d1 ++ ('.' :: (d2 ++ ('.' :: (d3 ++ ('.' :: (d4 ++
      (" port ".data ++ (p ++ suffix))))))))))
    (fun c hc => by simp [huw c hc])
    (Or.inr ⟨' ', _, rfl, by decide⟩)
  have hip := matchIp_pos d1 d2 d3 d4 (" port ".data ++ (p ++ suffix))
    h1 hd1 h2 hd2 h3 hd3 h4 hd4 (Or.inr ⟨' ', _, rfl, by decide⟩)
  have htp := takeRun_stop Char.isDigit p suffix hpd hsuf
  simp at htu hip
  simp only [matchFailAt]
  simp [dropLit, htu, hu, hip, htp, hp]

/-- `SSH_OK` matches at the start of a well-shaped success line. -/
theorem matchOkAt_pos (m u d1 d2 d3 d4 p suffix : List Char)
    (hm : m ≠ []) (hmw : ∀ c ∈ m, isWS c = false)
    (hu : u ≠ []) (huw : ∀ c ∈ u, isWS c = false)
    (h1 : d1 ≠ []) (hd1 : ∀ c ∈ d1, c.isDigit = true)
    (h2 : d2 ≠ []) (hd2 : ∀ c ∈ d2, c.isDigit = true)
    (h3 : d3 ≠ []) (hd3 : ∀ c ∈ d3, c.isDigit = true)
    (h4 : d4 ≠ []) (hd4 : ∀ c ∈ d4, c.isDigit = true)
    (hp : p ≠ []) (hpd : ∀ c ∈ p, c.isDigit = true)
    (hsuf : suffix = [] ∨ ∃ c cs', suffix = c :: cs' ∧ c.isDigit = false) :
    matchOkAt ("Accepted ".data ++ (m ++ (" for ".data ++ (u ++ (" from ".data ++
        (d1 ++ ('.' :: (d2 ++ ('.' :: (d3 ++ ('.' :: (d4 ++
          (" port ".data ++ (p ++ suffix))))))))))))))
      = some (String.mk u, String.mk (d1 ++ '.' :: (d2 ++ '.' :: (d3 ++ '.' :: d4))),
              String.mk p) := by
  have htm := takeRun_stop (fun c => !isWS c) m
    (" for ".data ++ (u ++ (" from ".data ++
      (d1 ++ ('.' :: (d2 ++ ('.' :: (d3 ++ ('.' :: (d4 ++
        (" port ".data ++ (p ++ suffix))))))))))))
    (fun c hc => by simp [hmw c hc])
    (Or.inr ⟨' ', _, rfl, by decide⟩)
  have htu := takeRun_stop (fun c => !isWS c) u
    (" from ".data ++ (d1 ++ ('.' :: (d2 ++ ('.' :: (d3 ++ ('.' :: (d4 ++
      (" port ".data ++ (p ++ suffix))))))))))
    (fun c hc => by simp [huw c hc])
    (Or.inr ⟨' ', _, rfl, by decide⟩)
  have hip := matchIp_pos d1 d2 d3 d4 (" port ".data ++ (p ++ suffix))
    h1 hd1 h2 hd2 h3 hd3 h4 hd4 (Or.inr ⟨' ', _, rfl, by decide⟩)
  have htp := takeRun_stop Char.isDigit p suffix hpd hsuf
  simp at htm htu hip
  simp only [matchOkAt]
  simp [dropLit, htm, hm, htu, hu, hip, htp, hp]

theorem searchFail_of_match (cs : List Char) (r : String × String × String)
    (hne : cs ≠ []) (h : matchFailAt cs = some r) : searchFail cs = some r := by
  cases cs with
  | nil => exact absurd rfl hne
  | cons c cs' => simp [searchFail, h]

theorem searchOk_of_match (cs : List Char) (r : String × String × String)
    (hne : cs ≠ []) (h : matchOkAt cs = some r) : searchOk cs = some r := by
  cases cs with
  | nil => exact absurd rfl hne
  | cons c cs' => simp [searchOk, h]

theorem searchFail_none (cs : List Char)
    (h : ∀ s, s <:+ cs → matchFailAt s = none) : searchFail cs = none := by
  induction cs with
  | nil => rfl
  | cons c cs ih =>
    have h0 := h (c :: cs) (List.suffix_refl _)
    have hrest := ih (fun s hs => h s (hs.trans (List.suffix_cons c cs)))
    simp [searchFail, h0, hrest]

theorem searchOk_none (cs : List Char)
    (h : ∀ s, s <:+ cs → matchOkAt s = none) : searchOk cs = none := by
  induction cs with
  | nil => rfl
  | cons c cs ih =>
    have h0 := h (c :: cs) (List.suffix_refl _)
    have hrest := ih (fun s hs => h s (hs.trans (List.suffix_cons c cs)))
    simp [searchOk, h0, hrest]

/-- The syslog-prefix regex cannot match when the fourth character is not
whitespace (the `[A-Z][a-z]{2}` must be followed by `\s+`), so lines like
`Failed ...` and `Accepted ...` are left unstripped. -/
theorem strip_noop (c1 c2 c3 c4 : Char) (rest : List Char) (h4 : isWS c4 = false) :
    stripSyslogPrefix (c1 :: c2 :: c3 :: c4 :: rest) = c1 :: c2 :: c3 :: c4 :: rest := by
  unfold stripSyslogPrefix matchSyslogPrefix
  by_cases h : isUpper c1 && isLower c2 && isLower c3
  · simp [h, takeRun, h4]
  · simp [h]

theorem string_mk_data (l : List Char) : (String.mk l).data = l := rfl

theorem strip_noop_failed (X : List Char) :
    stripSyslogPrefix ("Failed password for ".data ++ X)
      = "Failed password for ".data ++ X := by
  show stripSyslogPrefix ('F' :: 'a' :: 'i' :: 'l' :: ("ed password for ".data ++ X))
      = 'F' :: 'a' :: 'i' :: 'l' :: ("ed password for ".data ++ X)
  exact strip_noop 'F' 'a' 'i' 'l' _ (by decide)

theorem strip_noop_accepted (X : List Char) :
    stripSyslogPrefix ("Accepted ".data ++ X) = "Accepted ".data ++ X := by
  show stripSyslogPrefix ('A' :: 'c' :: 'c' :: 'e' :: ("pted ".data ++ X))
      = 'A' :: 'c' :: 'c' :: 'e' :: ("pted ".data ++ X)
  exact strip_noop 'A' 'c' 'c' 'e' _ (by decide)

/-- Counterexample to C3 as stated: `Failed password for bob from
evil.example port 22` has non-whitespace tokens `U = bob`, `I =
evil.example` and digits `P = 22`, yet `parse_sshd_line` returns `None` —
the regex requires a dotted-quad digit IP (`\d+\.\d+\.\d+\.\d+`), not
`\S+`. A dotted-quad line does parse. -/
theorem sshd_parser_requires_dotted_quad :
    parse_sshd_line "Failed password for bob from evil.example port 22" = none
    ∧ parse_sshd_line "Failed password for bob from 203.0.113.9 port 22"
      = some { outcome := "failure", severity := 4, userName := "bob",
               srcIp := "203.0.113.9", srcPort := 22,
               tags := ["ssh", "auth", "failure"] } := by
  constructor <;> rfl

/-- C3 (amended). A line of the form `Failed password for U from I port P`
(optionally continuing with a non-digit) with `U` a nonempty non-whitespace
token, `I` a dotted-quad digit string and `P` a nonempty digit string parses
to outcome `failure`, severity 4, `user.name = U`, `src.ip = I`,
`src.port = P`; a line `Accepted <method> for U from I port P` likewise
yields outcome `success` with severity 3 (provided the failure regex finds
no match in it); and a line in which neither pattern matches at any
position (after syslog-prefix stripping) returns `None`. -/
theorem parse_sshd_line_spec :
    (∀ u d1 d2 d3 d4 p suffix : List Char,
      u ≠ [] → (∀ c ∈ u, isWS c = false) →
      d1 ≠ [] → (∀ c ∈ d1, c.isDigit = true) →
      d2 ≠ [] → (∀ c ∈ d2, c.isDigit = true) →
      d3 ≠ [] → (∀ c ∈ d3, c.isDigit = true) →
      d4 ≠ [] → (∀ c ∈ d4, c.isDigit = true) →
      p ≠ [] → (∀ c ∈ p, c.isDigit = true) →
      (suffix = [] ∨ ∃ c cs', suffix = c :: cs' ∧ c.isDigit = false) →
      parse_sshd_line (String.mk ("Failed password for ".data ++ (u ++ (" from ".data ++
          (d1 ++ ('.' :: (d2 ++ ('.' :: (d3 ++ ('.' :: (d4 ++
            (" port ".data ++ (p ++ suffix)))))))))))))
        = some { outcome := "failure", severity := 4, userName := String.mk u,
                 srcIp := String.mk (d1 ++ '.' :: (d2 ++ '.' :: (d3 ++ '.' :: d4))),
                 srcPort := natOfDigits p, tags := ["ssh", "auth", "failure"] })
    ∧ (∀ m u d1 d2 d3 d4 p suffix : List Char,
      m ≠ [] → (∀ c ∈ m, isWS c = false) →
      u ≠ [] → (∀ c ∈ u, isWS c = false) →
      d1 ≠ [] → (∀ c ∈ d1, c.isDigit = true) →
      d2 ≠ [] → (∀ c ∈ d2, c.isDigit = true) →
      d3 ≠ [] → (∀ c ∈ d3, c.isDigit = true) →
      d4 ≠ [] → (∀ c ∈ d4, c.isDigit = true) →
      p ≠ [] → (∀ c ∈ p, c.isDigit = true) →
      (suffix = [] ∨ ∃ c cs', suffix = c :: cs' ∧ c.isDigit = false) →
      searchFail ("Accepted ".data ++ (m ++ (" for ".data ++ (u ++ (" from ".data ++
          (d1 ++ ('.' :: (d2 ++ ('.' :: (d3 ++ ('.' :: (d4 ++
            (" port ".data ++ (p ++ suffix)))))))))))))) = none →
      parse_sshd_line (String.mk ("Accepted ".data ++ (m ++ (" for ".data ++ (u ++ (" from ".data ++
          (d1 ++ ('.' :: (d2 ++ ('.' :: (d3 ++ ('.' :: (d4 ++
            (" port ".data ++ (p ++ suffix)))))))))))))))
        = some { outcome := "success", severity := 3, userName := String.mk u,
                 srcIp := String.mk (d1 ++ '.' :: (d2 ++ '.' :: (d3 ++ '.' :: d4))),
                 srcPort := natOfDigits p, tags := ["ssh", "auth", "success"] })
    ∧ (∀ line : String,
        (∀ s, s <:+ stripSyslogPrefix line.data → matchFailAt s = none ∧ matchOkAt s = none) →
        parse_sshd_line line = none) := by
  refine ⟨?_, ?_, ?_⟩
  · intro u d1 d2 d3 d4 p suffix hu huw h1 hd1 h2 hd2 h3 hd3 h4 hd4 hp hpd hsuf
    have hmatch := matchFailAt_pos u d1 d2 d3 d4 p suffix
      hu huw h1 hd1 h2 hd2 h3 hd3 h4 hd4 hp hpd hsuf
    have hstrip := strip_noop_failed (u ++ (" from ".data ++
        (d1 ++ ('.' :: (d2 ++ ('.' :: (d3 ++ ('.' :: (d4 ++
          (" port ".data ++ (p ++ suffix)))))))))))
    have hne : "Failed password for ".data ++ (u ++ (" from ".data ++
        (d1 ++ ('.' :: (d2 ++ ('.' :: (d3 ++ ('.' :: (d4 ++
          (" port ".data ++ (p ++ suffix))))))))))) ≠ [] := by
      simp
    have hsearch := searchFail_of_match _ _ hne hmatch
    unfold parse_sshd_line
    rw [string_mk_data, hstrip]
    simp at hsearch
    simp [hsearch]
  · intro m u d1 d2 d3 d4 p suffix hm hmw hu huw h1 hd1 h2 hd2 h3 hd3 h4 hd4 hp hpd hsuf hnofail
    have hmatch := matchOkAt_pos m u d1 d2 d3 d4 p suffix
      hm hmw hu huw h1 hd1 h2 hd2 h3 hd3 h4 hd4 hp hpd hsuf
    have hstrip := strip_noop_accepted (m ++ (" for ".data ++ (u ++ (" from ".data ++
        (d1 ++ ('.' :: (d2 ++ ('.' :: (d3 ++ ('.' :: (d4 ++
          (" port ".data ++ (p ++ suffix)))))))))))))
    have hne : "Accepted ".data ++ (m ++ (" for ".data ++ (u ++ (" from ".data ++
        (d1 ++ ('.' :: (d2 ++ ('.' :: (d3 ++ ('.' :: (d4 ++
          (" port ".data ++ (p ++ suffix)))))))))))))  ≠ [] := by
      simp
    have hsearch := searchOk_of_match _ _ hne hmatch
    unfold parse_sshd_line
    rw [string_mk_data, hstrip]
    simp at hnofail hsearch
    simp [hnofail, hsearch]
  · intro line h
    have hf := searchFail_none _ (fun s hs => (h s hs).1)
    have ho := searchOk_none _ (fun s hs => (h s hs).2)
    unfold parse_sshd_line
    simp only [hf, ho]

/-- Witness for C3 (amended): a concrete failure line and a concrete
success line parse to the claimed events. -/
theorem parse_sshd_line_spec_witness :
    parse_sshd_line (String.mk ("Failed password for ".data ++ ("root".data ++ (" from ".data ++
        ("203".data ++ ('.' :: ("0".data ++ ('.' :: ("113".data ++ ('.' :: ("9".data ++
          (" port ".data ++ ("22".data ++ " ssh2".data)))))))))))))
      = some { outcome := "failure", severity := 4, userName := String.mk "root".data,
               srcIp := String.mk ("203".data ++ '.' :: ("0".data ++ '.' ::
                 ("113".data ++ '.' :: "9".data))),
               srcPort := natOfDigits "22".data, tags := ["ssh", "auth", "failure"] } :=
  parse_sshd_line_spec.1 "root".data "203".data "0".data "113".data "9".data "22".data
    " ssh2".data (by decide) (by decide) (by decide) (by decide) (by decide) (by decide)
    (by decide) (by decide) (by decide) (by decide) (by decide) (by decide)
    (Or.inr ⟨' ', "ssh2".data, by decide, by decide⟩)

/-! ## Alert materialization and storage
(`server/detect/engine.py`, `server/storage/sqlite.py`)

`stable_alert_id` truncates a sha256 hex digest; the digest function is
abstracted as a parameter `hash` (injective in the idealized model). The
alerts table is tracked by its primary key column. -/

/-- `stable_alert_id(rule_id, entity, bucket) = "a_" + hash(rule|entity|bucket)`,
with `hash` abstracting `sha256(...).hexdigest()[:24]`. -/
def stable_alert_id (hash : String → String) (rule_id entity bucket : String) : String :=
  "a_" ++ hash (rule_id ++ "|" ++ entity ++ "|" ++ bucket)

/-- `insert_alert` (INSERT OR IGNORE keyed by `alert_id`): the table's id
column, appended only when the id is absent. -/
def insert_alert (table : List String) (aid : String) : List String :=
  if aid ∈ table then table else table ++ [aid]

/-- The `(rule_id, entity, bucket)` key string hashed by `stable_alert_id`. -/
def tripleKey (t : String × String × String) : String :=
  t.1 ++ "|" ++ t.2.1 ++ "|" ++ t.2.2

/-- Derive and insert the alerts of a list of `(rule_id, entity, bucket)`
detections (`to_alert` + `insert_alert` for each). -/
def insertDets (hash : String → String) (ds : List (String × String × String))
    (table : List String) : List String :=
  ds.foldl (fun tb t => insert_alert tb (stable_alert_id hash t.1 t.2.1 t.2.2)) table

/-! ## The remaining rules and the full engine, for the ingest pipeline -/

/-- AUTH003 state: `user -> known source IPs` (a set, insertion order kept). -/
def NewIPSt : Type := String → List String

/-- `NewIPForUserRule.on_event`: on an auth/ssh_login success with user and
source IP, fire iff the user's known-IP set is non-empty and does not hold
this IP; the IP is then added either way. -/
def newIpStep (st : NewIPSt) (ev : Ev) : NewIPSt × Option Detection :=
  if ev.etype = "auth" && ev.action = "ssh_login" then
    if ev.outcome = "success" then
      match ev.user, ev.srcIp with
      | some u, some ip =>
        if u = "" || ip = "" then (st, none) else
          let known := st u
          let st' : NewIPSt := fun k =>
            if k = u then (if ip ∈ known then known else known ++ [ip]) else st k
          if known ≠ [] ∧ ip ∉ known then
            (st', some { rule_id := "AUTH003", title := "New source IP for user login",
                         severity := 5, entity := "user:" ++ u,
                         event_ids := [ev.eid], bucket := bucketMinute ev.ts })
          else (st', none)
      | _, _ => (st, none)
    else (st, none)
  else (st, none)

/-- AUTH005 state: `user -> (ts, lat, lon, event_id)` of the last
geo-carrying success. -/
def TravelSt : Type := String → Option (String × ℝ × ℝ × String)

/-- `ImpossibleTravelLiteRule.on_event`, with the real-valued speed test
(`haversine_km(prev, cur) / max(Δhours, 1e-6) > max_kmh`, Δ from
`parse_ts`) abstracted as the parameter `speedX prev_ts plat plon ts lat lon`.
`geo = some (lat, lon)` models a geo dict carrying both keys. -/
def travelStep (speedX : String → ℝ → ℝ → String → ℝ → ℝ → Bool)
    (st : TravelSt) (ev : Ev) : TravelSt × Option Detection :=
  if ev.etype = "auth" && ev.action = "ssh_login" then
    if ev.outcome = "success" then
      match ev.user, ev.geo with
      | some u, some g =>
        if u = "" then (st, none) else
          let prev := st u
          let st' : TravelSt := fun k => if k = u then some (ev.ts, g.1, g.2, ev.eid) else st k
          match prev with
          | none => (st', none)
          | some (pts, plat, plon, peid) =>
              if speedX pts plat plon ev.ts g.1 g.2 then
                (st', some { rule_id := "AUTH005",
                             title := "Impossible travel suspected (geo jump too fast)",
                             severity := 9, entity := "user:" ++ u,
                             event_ids := [peid, ev.eid], bucket := bucketMinute ev.ts })
              else (st', none)
      | _, _ => (st, none)
    else (st, none)
  else (st, none)

/-- The `DetectionEngine`'s rule states (AUTH004 is stateless). -/
structure EngSt where
  bf : BFSt
  spray : SpraySt
  newip : NewIPSt
  travel : TravelSt

/-- The engine with all five default-constructed rules, fresh. -/
def engEmpty : EngSt :=
  { bf := bfEmpty, spray := sprayEmpty, newip := fun _ => [], travel := fun _ => none }

/-- `DetectionEngine.process`: run every rule in order, collecting the
detections. -/
def engStep (speedX : String → ℝ → ℝ → String → ℝ → ℝ → Bool)
    (st : EngSt) (ev : Ev) : EngSt × List Detection :=
  let b := bfStep 5 st.bf ev
  let s := sprayStep 4 2 st.spray ev
  let n := newIpStep st.newip ev
  let o := offStep 8 18 ev
  let t := travelStep speedX st.travel ev
  ({ bf := b.1, spray := s.1, newip := n.1, travel := t.1 },
   [b.2, s.2, n.2, o, t.2].filterMap id)

/-- One server pipeline: for each ingested event, feed the engine, derive
each detection's alert (`to_alert` with the detection's bucket) and insert
it (INSERT OR IGNORE). Returns the engine state and the alerts table ids. -/
def ingest_stream (hash : String → String)
    (speedX : String → ℝ → ℝ → String → ℝ → ℝ → Bool) :
    EngSt → List String → List Ev → EngSt × List String
  | st, table, [] => (st, table)
  | st, table, ev :: rest =>
      let step := engStep speedX st ev
      let table' := step.2.foldl
        (fun tb d => insert_alert tb (stable_alert_id hash d.rule_id d.entity d.bucket)) table
      ingest_stream hash speedX step.1 table' rest

/-- Counterexample to C4 as stated: ingesting the 3-failure stream
`[bfDemoEv 0, bfDemoEv 1, bfDemoEv 2]` once stores 0 alerts, but ingesting
it twice through the same pipeline stores 1 (the carried-over brute-force
history crosses the threshold during the second pass, at a
`(rule, entity, bucket)` never derived in the first), so twice is not ≤
once. (`hash` instantiated with the identity, `speedX` never reached:
the stream has no success events.) -/
theorem double_ingest_adds_rows :
    (ingest_stream (fun s => s) (fun _ _ _ _ _ _ => false) engEmpty []
      [bfDemoEv 0, bfDemoEv 1, bfDemoEv 2]).2.length = 0
    ∧ (ingest_stream (fun s => s) (fun _ _ _ _ _ _ => false) engEmpty []
      ([bfDemoEv 0, bfDemoEv 1, bfDemoEv 2] ++ [bfDemoEv 0, bfDemoEv 1, bfDemoEv 2])).2.length = 1
    ∧ ¬((ingest_stream (fun s => s) (fun _ _ _ _ _ _ => false) engEmpty []
      ([bfDemoEv 0, bfDemoEv 1, bfDemoEv 2] ++ [bfDemoEv 0, bfDemoEv 1, bfDemoEv 2])).2.length
        ≤ (ingest_stream (fun s => s) (fun _ _ _ _ _ _ => false) engEmpty []
      [bfDemoEv 0, bfDemoEv 1, bfDemoEv 2]).2.length) := by
  refine ⟨by decide, by decide, by decide⟩

theorem mem_insert_alert (table : List String) (x a : String) :
    a ∈ insert_alert table x ↔ a ∈ table ∨ a = x := by
  unfold insert_alert
  by_cases hx : x ∈ table
  · simp only [if_pos hx]
    constructor
    · exact Or.inl
    · rintro (h | rfl)
      · exact h
      · exact hx
  · simp [if_neg hx]

theorem insert_alert_nodup (table : List String) (x : String) (h : table.Nodup) :
    (insert_alert table x).Nodup := by
  unfold insert_alert
  by_cases hx : x ∈ table
  · simpa [hx] using h
  · simp only [if_neg hx]
    exact List.Nodup.append h (List.nodup_singleton x) (by simpa using hx)

theorem mem_insertDets (hash : String → String) (ds : List (String × String × String)) :
    ∀ (table : List String) (a : String),
      a ∈ insertDets hash ds table
        ↔ a ∈ table ∨ a ∈ ds.map (fun t => stable_alert_id hash t.1 t.2.1 t.2.2) := by
  induction ds with
  | nil => intro table a; simp [insertDets]
  | cons t ds ih =>
    intro table a
    rw [insertDets, List.foldl_cons]
    rw [show (List.foldl _ _ ds : List String) = insertDets hash ds
        (insert_alert table (stable_alert_id hash t.1 t.2.1 t.2.2)) from rfl]
    rw [ih, mem_insert_alert]
    simp
    tauto

theorem insertDets_nodup (hash : String → String) (ds : List (String × String × String)) :
    ∀ table : List String, table.Nodup → (insertDets hash ds table).Nodup := by
  induction ds with
  | nil => intro table h; simpa [insertDets] using h
  | cons t ds ih =>
    intro table h
    rw [insertDets, List.foldl_cons]
    exact ih _ (insert_alert_nodup _ _ h)

theorem prefix_hash_injective (hash : String → String) (hinj : Function.Injective hash) :
    Function.Injective (fun s => "a_" ++ hash s) := by
  intro a b hab
  simp only at hab
  have hd := congrArg String.data hab
  simp only [String.data_append] at hd
  have := List.append_cancel_left hd
  exact hinj (by
    apply congrArg String.mk at this
    simpa using this)

/-- C4 (amended). `stable_alert_id` is deterministic in `(rule_id, entity,
bucket)` and `insert_alert` is INSERT OR IGNORE on `alert_id`, so: inserting
an alert whose id is already stored leaves the table unchanged; with the
digest injective, inserting any detection list into an empty table leaves
exactly one row per distinct `(rule_id, entity, bucket)` triple; and a
detection re-derived at a triple already inserted adds no row. (Double
ingest of a stream is nonetheless not row-idempotent: carried-over rule
state can fire at triples the first pass never derived.) -/
theorem alert_idempotence_spec :
    (∀ (table : List String) (aid : String), aid ∈ table → insert_alert table aid = table)
    ∧ (∀ hash : String → String, Function.Injective hash →
        ∀ ds : List (String × String × String),
          (insertDets hash ds []).length = ((ds.map tripleKey).toFinset).card)
    ∧ (∀ (hash : String → String) (ds : List (String × String × String))
        (t : String × String × String), tripleKey t ∈ ds.map tripleKey →
          insertDets hash (ds ++ [t]) [] = insertDets hash ds []) := by
  refine ⟨?_, ?_, ?_⟩
  · intro table aid h
    simp [insert_alert, h]
  · intro hash hinj ds
    have hnodup := insertDets_nodup hash ds [] List.nodup_nil
    have hmem : ∀ a, a ∈ insertDets hash ds []
        ↔ a ∈ ds.map (fun t => stable_alert_id hash t.1 t.2.1 t.2.2) := by
      intro a
      rw [mem_insertDets]
      simp
    have hfin : (insertDets hash ds []).toFinset
        = (ds.map (fun t => stable_alert_id hash t.1 t.2.1 t.2.2)).toFinset := by
      ext a
      simp only [List.mem_toFinset]
      exact hmem a
    have hlen : (insertDets hash ds []).length = (insertDets hash ds []).toFinset.card :=
      (List.toFinset_card_of_nodup hnodup).symm
    rw [hlen, hfin]
    have hcomp : (ds.map (fun t => stable_alert_id hash t.1 t.2.1 t.2.2))
        = (ds.map tripleKey).map (fun s => "a_" ++ hash s) := by
      rw [List.map_map]
      rfl
    rw [hcomp]
    have himg : (List.map (fun s => "a_" ++ hash s) (List.map tripleKey ds)).toFinset
        = (List.map tripleKey ds).toFinset.image (fun s => "a_" ++ hash s) := by
      ext a
      simp [List.mem_map]
      constructor
      · rintro ⟨x, y, z, hmem, rfl⟩
        exact ⟨tripleKey (x, y, z), ⟨x, y, z, hmem, rfl⟩, rfl⟩
      · rintro ⟨s, ⟨x, y, z, hmem, rfl⟩, rfl⟩
        exact ⟨x, y, z, hmem, rfl⟩
    rw [himg, Finset.card_image_of_injective _ (prefix_hash_injective hash hinj)]
  · intro hash ds t hmemt
    have heq : insertDets hash (ds ++ [t]) []
        = insert_alert (insertDets hash ds []) (stable_alert_id hash t.1 t.2.1 t.2.2) := by
      rw [insertDets, List.foldl_append]
      rfl
    rw [heq]
    obtain ⟨t', ht', hkey⟩ := List.mem_map.mp hmemt
    have hid : stable_alert_id hash t.1 t.2.1 t.2.2
        = stable_alert_id hash t'.1 t'.2.1 t'.2.2 := by
      unfold stable_alert_id
      rw [show t.1 ++ "|" ++ t.2.1 ++ "|" ++ t.2.2 = tripleKey t from rfl,
          show t'.1 ++ "|" ++ t'.2.1 ++ "|" ++ t'.2.2 = tripleKey t' from rfl, hkey]
    have hmem : stable_alert_id hash t.1 t.2.1 t.2.2 ∈ insertDets hash ds [] := by
      rw [mem_insertDets]
      right
      rw [hid]
      exact List.mem_map.mpr ⟨t', ht', rfl⟩
    simp [insert_alert, hmem]

/-- Witness for C4 (amended): inserting an id already present leaves the
table unchanged. -/
theorem alert_idempotence_spec_witness :
    insert_alert ["a_k1", "a_k2"] "a_k2" = ["a_k1", "a_k2"] :=
  alert_idempotence_spec.1 ["a_k1", "a_k2"] "a_k2" (by decide)

end Minisoc
